import Mathlib

/-!
Verification of the address-resolution and connection subsystem of libcups
(files cups/http-addrlist.c and cups/notify.c), shallowly embedded in Lean.

Conventions of the embedding:
* C strings are `List Char`; the NUL terminator is implicit.
* The default POSIX build is modelled: the `_WIN32` and `__sun` conditional
  branches are not taken, `O_NONBLOCK`, `AF_INET6` and `FD_CLOEXEC` are
  defined.
* Fallible system calls (socket, connect, poll, getsockopt, getaddrinfo,
  getservbyname, malloc/calloc) are driven by environment records holding one
  oracle per call site, indexed by a per-call counter threaded through the
  state.  errno is modelled as explicit state.
* The process-wide last-error sink (written through cupsSetError in the C
  code) is modelled as an explicit field; its value type mirrors the error
  taxonomy of the specification, with one constructor per distinct
  cupsSetError call site plus the taxonomy entries the code never writes.
* Ghost fields (the multiset of open sockets, the list of poll records, the
  list of cancel-flag reads, live allocation counts) record events exactly
  where the corresponding C call happens; they never influence control flow.
-/

/-! ## Basic C-string helpers -/

/-- Lowercase mapping used by the case-insensitive compare of cups strcasecmp. -/
def caseEq (a b : List Char) : Bool :=
  a.map Char.toLower == b.map Char.toLower

/-- First-character digit test, mirroring isdigit applied to the first byte of
a C string (an empty string has first byte NUL, which is not a digit). -/
def digitStart (s : List Char) : Bool :=
  match s.head? with
  | some c => c.isDigit
  | none => false

/-- Accumulating digit parser underlying `atoiC`. -/
def atoiDigits : List Char → Nat → Nat
  | [], acc => acc
  | c :: rest, acc =>
      if c.isDigit then atoiDigits rest (acc * 10 + (c.toNat - 48)) else acc

/-- Value of atoi on the strings reaching it in httpAddrGetList: the numeric
value of the longest digit prefix (the branch guard guarantees the first
character is a digit, so the whitespace/sign handling of atoi is inert). -/
def atoiC (s : List Char) : Nat := atoiDigits s 0

/-- Modelled from the spec: cupsCopyString, the repository's bounded string
copy (not part of the given sources), copies at most size - 1 characters into
the destination buffer and NUL-terminates it. -/
def cupsCopyStringN (src : List Char) (size : Nat) : List Char :=
  src.take (size - 1)

/-- Decimal rendering of a C int, as produced by the %d conversion. -/
def intChars (i : Int) : List Char := (toString i).data

/-! ## Notification subject formatting (cups/notify.c) -/

/-- Event attribute bag: the seven attributes cupsLocalizeNotifySubject looks
up with ippFindAttribute, each present (with the looked-up syntax tag) or
absent. -/
structure IppEvent where
  jobId : Option Int
  jobName : Option (List Char)
  jobState : Option Int
  printerName : Option (List Char)
  printerState : Option Int
  printerUri : Option (List Char)
  subscribed : Option (List Char)
deriving DecidableEq

/-- IPP job-state enumeration values used by the switch in the C code. -/
def IPP_JSTATE_PENDING : Int := 3
def IPP_JSTATE_HELD : Int := 4
def IPP_JSTATE_PROCESSING : Int := 5
def IPP_JSTATE_STOPPED : Int := 6
def IPP_JSTATE_CANCELED : Int := 7
def IPP_JSTATE_ABORTED : Int := 8
def IPP_JSTATE_COMPLETED : Int := 9

/-- IPP printer-state enumeration values used by the printer-event switch. -/
def IPP_PSTATE_IDLE : Int := 3
def IPP_PSTATE_PROCESSING : Int := 4
def IPP_PSTATE_STOPPED : Int := 5

/-- The job-state switch of cupsLocalizeNotifySubject: message key chosen for
each job-state value. -/
def jobStateWord (s : Int) : List Char :=
  if s = IPP_JSTATE_PENDING then "pending".data
  else if s = IPP_JSTATE_HELD then "held".data
  else if s = IPP_JSTATE_PROCESSING then "processing".data
  else if s = IPP_JSTATE_STOPPED then "stopped".data
  else if s = IPP_JSTATE_CANCELED then "canceled".data
  else if s = IPP_JSTATE_ABORTED then "aborted".data
  else if s = IPP_JSTATE_COMPLETED then "completed".data
  else "unknown".data

/-- The printer-state switch of cupsLocalizeNotifySubject. -/
def printerStateWord (s : Int) : List Char :=
  if s = IPP_PSTATE_IDLE then "idle".data
  else if s = IPP_PSTATE_PROCESSING then "processing".data
  else if s = IPP_PSTATE_STOPPED then "stopped".data
  else "unknown".data

/-- Size of the subject buffer in cupsLocalizeNotifySubject. -/
def SUBJECT_BUFSIZE : Nat := 1024

/-- cupsLocalizeNotifySubject from cups/notify.c.  The language handle is the
localization function backing cupsLangGetString; snprintf into the 1024-byte
buffer keeps at most 1023 characters. -/
def cupsLocalizeNotifySubject (lang : Option (List Char → List Char))
    (event : Option IppEvent) : Option (List Char) :=
  match event, lang with
  | some ev, some lg =>
    match ev.jobId, ev.printerName, ev.printerUri, ev.jobState with
    | some jid, some pn, some _, some js =>
      let pfx := lg "Print Job:".data
      let st := lg (jobStateWord js)
      let nm := match ev.jobName with
                | some n => n
                | none => lg "untitled".data
      some ((pfx ++ " ".data ++ pn ++ "-".data ++ intChars jid ++ " (".data ++
             nm ++ ") ".data ++ st).take (SUBJECT_BUFSIZE - 1))
    | _, _, _, _ =>
      match ev.printerUri, ev.printerName, ev.printerState with
      | some _, some pn, some ps =>
        some ((lg "Printer:".data ++ " ".data ++ pn ++ " ".data ++
               lg (printerStateWord ps)).take (SUBJECT_BUFSIZE - 1))
      | _, _, _ =>
        match ev.subscribed with
        | some sub => some (sub.take (SUBJECT_BUFSIZE - 1))
        | none => none
  | _, _ => none

/-- Spec-side state-word table, written from the claim's enumeration: the
job-state enumeration maps to one of pending, held, processing, stopped,
canceled, aborted, completed, or unknown. -/
def specStateWord (js : Int) : List Char :=
  if js = 3 then "pending".data
  else if js = 4 then "held".data
  else if js = 5 then "processing".data
  else if js = 6 then "stopped".data
  else if js = 7 then "canceled".data
  else if js = 8 then "aborted".data
  else if js = 9 then "completed".data
  else "unknown".data

/-- Spec-side job-event subject, assembled from the words of the
specification: JobPrefix, blank, printer, dash, job id, job name in
parentheses (or the word for untitled), blank, job-state word.  This is the
form the claim asserts, spelled independently of the formatting code; it has
no buffer bound. -/
def specJobSubject (lg : List Char → List Char) (printer : List Char)
    (jid : Int) (jobname : Option (List Char)) (js : Int) : List Char :=
  lg "Print Job:".data ++ " ".data ++ printer ++ "-".data ++ intChars jid ++
    " (".data ++ jobname.getD (lg "untitled".data) ++ ") ".data ++
    lg (specStateWord js)

/-! ## Address-list copy and free (httpAddrCopyList / httpAddrFreeList)

Nodes are identified by allocation ids drawn from an explicit heap, so that
node sharing and double freeing are expressible.  A C address list value is a
`List (Nat × Nat)` of (node id, address payload) pairs; the empty list is the
NULL pointer. -/

/-- Allocator state: fresh-id counter, the ids currently allocated, and the
number of malloc calls made so far (index into the failure oracle). -/
structure Heap where
  nextId : Nat
  live : List Nat
  kAlloc : Nat
deriving DecidableEq

/-- Error taxonomy for the last-error sink of the address-list operations.
The code of httpAddrCopyList writes none of these; the internal constructor
exists because the specification claims an Internal error is reported. -/
inductive CopyErr
  | internal
deriving DecidableEq

/-- Result of httpAddrCopyList: the returned pointer (empty list is NULL),
the heap after the call, and the last-error sink as left by the call. -/
structure CopyOut where
  dst : List (Nat × Nat)
  heap : Heap
  lastErr : Option CopyErr
deriving DecidableEq

/-- malloc: consumes one failure-oracle index; on success returns a fresh id. -/
def mallocNode (allocFails : Nat → Bool) (h : Heap) : Option (Nat × Heap) :=
  if allocFails h.kAlloc then none
  else some (h.nextId,
    { nextId := h.nextId + 1, live := h.nextId :: h.live, kAlloc := h.kAlloc + 1 })

/-- httpAddrFreeList from cups/http-addrlist.c: frees every node of the list. -/
def httpAddrFreeList (h : Heap) (l : List (Nat × Nat)) : Heap :=
  { h with live := l.foldl (fun acc p => acc.erase p.1) h.live }

/-- Main loop of httpAddrCopyList: walk the source, malloc a node per entry
and copy the payload; on malloc failure free everything built so far and
return NULL.  `dst` accumulates the nodes built so far, in order. -/
def copyListGo (allocFails : Nat → Bool) : List (Nat × Nat) → Heap →
    List (Nat × Nat) → CopyOut
  | [], h, dst => { dst := dst, heap := h, lastErr := none }
  | s :: rest, h, dst =>
    match mallocNode allocFails h with
    | none =>
      { dst := [], heap := httpAddrFreeList { h with kAlloc := h.kAlloc + 1 } dst,
        lastErr := none }
    | some (id, h1) => copyListGo allocFails rest h1 (dst ++ [(id, s.2)])

/-- httpAddrCopyList from cups/http-addrlist.c. -/
def httpAddrCopyList (allocFails : Nat → Bool) (h : Heap)
    (src : List (Nat × Nat)) : CopyOut :=
  copyListGo allocFails src h []

/-! ## Resolver (httpAddrGetList, cups/http-addrlist.c)

The system lookup (getaddrinfo), the service database (getservbyname) and the
allocator are oracles in a `ResolveEnv`.  The port stored into a sockaddr
goes through htons, hence modulo 2 to the 16. -/

/-- Address family filter passed to httpAddrGetList. -/
inductive Fam
  | unspec
  | inet
  | inet6
deriving DecidableEq

/-- Family of one getaddrinfo result entry; `other` covers every family that
is neither AF_INET nor AF_INET6 (such entries are skipped by the copy loop). -/
inductive GFam
  | inet
  | inet6
  | other
deriving DecidableEq

/-- One getaddrinfo result: its family and an opaque token for the sockaddr
bytes the code would memcpy. -/
structure GaiEnt where
  fam : GFam
  blob : Nat
deriving DecidableEq

/-- A socket address node as built by httpAddrGetList.  v4/v6 carry the
numeric host address value and the port; sys is a node copied verbatim from a
getaddrinfo result. -/
inductive HAddr
  | localPath (p : List Char)
  | v4 (a : Nat) (port : Nat)
  | v6 (a : Nat) (port : Nat)
  | sys (fam : GFam) (blob : Nat)
deriving DecidableEq

/-- Last-error sink values writable by httpAddrGetList: one constructor per
cupsSetError call site (internal with strerror text after a failed
allocation, the gai_strerror text after a failed lookup, and the unknown
service message). -/
inductive ResErr
  | internalErrno (e : Nat)
  | gaiFailed (code : Nat)
  | unknownService
deriving DecidableEq

/-- Environment of one httpAddrGetList call. -/
structure ResolveEnv where
  gai : Option (List Char) → Fam → Option (List Char) → Except Nat (List GaiEnt)
  servPort : List Char → Option Nat
  allocFails : Nat → Bool

/-- Result of httpAddrGetList: returned list (empty is NULL), final
last-error sink, the hostname argument passed to getaddrinfo if it was
called (ghost), and the number of nodes still allocated at return (ghost). -/
structure ResolveOut where
  addrs : List HAddr
  lastErr : Option ResErr
  gaiArg : Option (Option (List Char))
  live : Nat
deriving DecidableEq

/-- ENOMEM as left in errno by a failed allocation. -/
def ENOMEM : Nat := 12

/-- The literal localhost. -/
def localhostC : List Char := "localhost".data

/-- strrchr-based rewrite: replace the last plus sign, if any, by the percent
zone delimiter (lines 517-518 of http-addrlist.c). -/
def replLastPlus : List Char → List Char
  | [] => []
  | c :: rest =>
      if '+' ∈ rest then c :: replLastPlus rest
      else if c = '+' then '%' :: rest
      else c :: rest

/-- Bracket handling of httpAddrGetList (lines 504-531): unwrap a bracketed
IPv6 literal, and for the extended [v1....] form additionally rewrite the
last plus sign to the percent zone delimiter.  The copies go through the
64-byte ipv6 buffer, hence keep at most 63 characters. -/
def rewriteHostname (h : List Char) : List Char :=
  if h.head? = some '[' then
    if h.take 4 = "[v1.".data then
      let ipv6 := cupsCopyStringN (h.drop 4) 64
      if ipv6 ≠ [] ∧ ipv6.getLast? = some ']' then replLastPlus ipv6.dropLast
      else h
    else
      let ipv6 := cupsCopyStringN (h.drop 1) 64
      if ipv6 ≠ [] ∧ ipv6.getLast? = some ']' then ipv6.dropLast
      else h
  else h

/-- Builtin service table fallback of httpAddrGetList (lines 604-623). -/
def builtinPort (s : List Char) : Option Nat :=
  if s = "http".data then some 80
  else if s = "https".data then some 443
  else if s = "ipp".data then some 631
  else if s = "ipps".data then some 631
  else if s = "lpd".data then some 515
  else if s = "socket".data then some 9100
  else none

/-- Service-to-port resolution of the fallback step (lines 592-630): absent
service means port 0; a digit-leading service is parsed numerically; then the
system service database; then the builtin table; none means the unknown
service error. -/
def portResolve (env : ResolveEnv) (service : Option (List Char)) : Option Nat :=
  match service with
  | none => some 0
  | some s =>
    if digitStart s then some (atoiC s)
    else match env.servPort s with
      | some p => some p
      | none => builtinPort s

/-- Copy loop over getaddrinfo results (lines 536-566): keep AF_INET and
AF_INET6 entries in order, one calloc per kept entry; a failed calloc frees
the partial list and aborts the whole call.  Returns the kept list and the
advanced allocation counter, or the built-so-far count on failure. -/
def gaiCopy (env : ResolveEnv) : List GaiEnt → Nat → List HAddr →
    Except Nat (List HAddr × Nat)
  | [], _, acc => .ok (acc, acc.length)
  | e :: rest, k, acc =>
    if e.fam = GFam.other then gaiCopy env rest k acc
    else if env.allocFails k then .error acc.length
    else gaiCopy env rest (k + 1) (acc ++ [HAddr.sys e.fam e.blob])

/-- Loopback / wildcard construction of the fallback step (lines 632-732):
an IPv6 entry (loopback ::1 or wildcard ::) unless the family filter is
IPv4-only, then an IPv4 entry (127.0.0.1 or 0.0.0.0) unless the filter is
IPv6-only, each with the resolved port pushed through htons.  A failed calloc
writes the internal error, frees the partial list and returns NULL. -/
def buildPair (env : ResolveEnv) (k : Nat) (pn : Nat) (family : Fam)
    (loopback : Bool) (prevErr : Option ResErr)
    (garg : Option (Option (List Char))) : ResolveOut :=
  let p := pn % 65536
  let v6val : Nat := if loopback then 1 else 0
  let v4val : Nat := if loopback then 0x7f000001 else 0
  if family ≠ Fam.inet then
    if env.allocFails k then
      { addrs := [], lastErr := some (ResErr.internalErrno ENOMEM),
        gaiArg := garg, live := 0 }
    else
      if family ≠ Fam.inet6 then
        if env.allocFails (k + 1) then
          { addrs := [], lastErr := some (ResErr.internalErrno ENOMEM),
            gaiArg := garg, live := 0 }
        else
          { addrs := [HAddr.v6 v6val p, HAddr.v4 v4val p], lastErr := prevErr,
            gaiArg := garg, live := 2 }
      else
        { addrs := [HAddr.v6 v6val p], lastErr := prevErr,
          gaiArg := garg, live := 1 }
  else
    if env.allocFails k then
      { addrs := [], lastErr := some (ResErr.internalErrno ENOMEM),
        gaiArg := garg, live := 0 }
    else
      { addrs := [HAddr.v4 v4val p], lastErr := prevErr,
        gaiArg := garg, live := 1 }

/-- True when the fallback guard of line 585 admits this (possibly rewritten)
hostname: absent, or case-insensitively equal to localhost. -/
def isLhOrNone : Option (List Char) → Bool
  | none => true
  | some h => caseEq h localhostC

/-- Fallback step of httpAddrGetList (lines 584-733), reached with an empty
result list: resolve the service to a port (else the unknown-service error),
then build loopback or wildcard addresses according to the hostname. -/
def resolveFallback (env : ResolveEnv) (k : Nat)
    (hostname : Option (List Char)) (family : Fam)
    (service : Option (List Char)) (prevErr : Option ResErr)
    (garg : Option (Option (List Char))) : ResolveOut :=
  match portResolve env service with
  | none =>
    { addrs := [], lastErr := some ResErr.unknownService, gaiArg := garg,
      live := 0 }
  | some pn =>
    match hostname with
    | some h =>
      if caseEq h localhostC then buildPair env k pn family true prevErr garg
      else { addrs := [], lastErr := prevErr, gaiArg := garg, live := 0 }
    | none => buildPair env k pn family false prevErr garg

/-- Lookup branch of httpAddrGetList (lines 491-582) followed by the fallback
check: call getaddrinfo on the (already rewritten) hostname, copy its INET
and INET6 results, and fall back when nothing was produced for an absent or
localhost hostname.  A failed mid-copy calloc returns NULL at once with the
internal error. -/
def afterLookup (env : ResolveEnv) (hostname : Option (List Char))
    (family : Fam) (service : Option (List Char)) : ResolveOut :=
  match env.gai hostname family service with
  | .ok rs =>
    match gaiCopy env rs 0 [] with
    | .error _ =>
      { addrs := [], lastErr := some (ResErr.internalErrno ENOMEM),
        gaiArg := some hostname, live := 0 }
    | .ok (adds, k) =>
      if adds.isEmpty ∧ isLhOrNone hostname then
        resolveFallback env k hostname family service none (some hostname)
      else
        { addrs := adds, lastErr := none, gaiArg := some hostname,
          live := adds.length }
  | .error c =>
    if isLhOrNone hostname then
      resolveFallback env 0 hostname family service
        (some (ResErr.gaiFailed c)) (some hostname)
    else
      { addrs := [], lastErr := some (ResErr.gaiFailed c),
        gaiArg := some hostname, live := 0 }

/-- httpAddrGetList from cups/http-addrlist.c.  A hostname starting with a
slash yields a single domain-socket node (or NULL on calloc failure, which
skips the fallback because such a hostname is never localhost); a localhost
hostname skips the system lookup entirely; anything else is bracket-rewritten
and looked up. -/
def httpAddrGetList (env : ResolveEnv) (hostname : Option (List Char))
    (family : Fam) (service : Option (List Char)) : ResolveOut :=
  match hostname with
  | some h =>
    if h.head? = some '/' then
      if env.allocFails 0 then
        { addrs := [], lastErr := none, gaiArg := none, live := 0 }
      else
        { addrs := [HAddr.localPath h], lastErr := none, gaiArg := none,
          live := 1 }
    else if caseEq h localhostC then
      resolveFallback env 0 (some h) family service none none
    else
      afterLookup env (some (rewriteHostname h)) family service
  | none => afterLookup env none family service

/-! ## Connection racer (httpAddrConnect, cups/http-addrlist.c)

A fuel-indexed state machine.  Addresses are opaque ids; the working set is
the zipped fds[] / addrs[] pair arrays; pfds[].revents is carried as a
separate list because the removal code of lines 300-308 shifts fds and addrs
but not pfds.  File descriptors are handed out by a monotone counter, as the
operating system never returns a descriptor that is still open. -/

/-- errno values of the modelled POSIX build (Linux numbering; EAGAIN and
EWOULDBLOCK coincide there). -/
def EINPROGRESS : Nat := 115
def EWOULDBLOCK : Nat := 11
def EAGAIN : Nat := 11
def EINTR : Nat := 4
def EHOSTDOWN : Nat := 112
def ETIMEDOUT : Nat := 110
def EINVAL : Nat := 22

/-- INT_MAX, the budget substituted for a non-positive timeout. -/
def INTMAX : Int := 2147483647

/-- Capacity of the fds[] / addrs[] arrays. -/
def FDS_CAPACITY : Nat := 100

/-- Result of one connect call. -/
inductive ConnectOutcome
  | ok
  | errno (e : Nat)
deriving DecidableEq

/-- Revents bits of one pollfd slot. -/
structure Revents where
  pin : Bool
  pout : Bool
  perr : Bool
  phup : Bool
deriving DecidableEq

/-- Result of one poll call: a negative return with an errno, a zero return,
or a positive return with the revents of each slot (by slot index). -/
inductive PollOutcome
  | err (e : Nat)
  | timeout
  | ready (revs : Nat → Revents)

/-- Environment of one httpAddrConnect call; every oracle is indexed by the
per-call counter of the corresponding system call. -/
structure ConnEnv where
  socketFails : Nat → Bool
  connectRes : Nat → ConnectOutcome
  pollRes : Nat → PollOutcome
  soError : Nat → Int × Nat
  cancelPresent : Bool
  cancelVal : Nat → Bool

/-- Last-error sink values for httpAddrConnect: the two cupsSetError call
sites of the function (internal with strerror for a missing sock slot,
service unavailable with strerror at the common failure exit), plus the
cancelled taxonomy entry of the specification, which the code never writes. -/
inductive ConnLastErr
  | internal (e : Nat)
  | serviceUnavailable (e : Nat)
  | cancelled
deriving DecidableEq

/-- Ghost record of one poll call: the timeout slice passed to poll, whether
the candidate cursor was non-null at that point, and the remaining budget. -/
structure PollRecord where
  slice : Int
  cursorNonempty : Bool
  remainingBefore : Int
deriving DecidableEq

/-- State of the racer.  cursor is the unconsumed tail of the address list
(address ids); fds is the working set of (descriptor, address id) pairs;
openFds lists every descriptor opened by the call and not yet closed
(ghost); polls and cancelReads are ghost traces. -/
structure ConnState where
  cursor : List Nat
  fds : List (Nat × Nat)
  remaining : Int
  errnoV : Nat
  nextFd : Nat
  openFds : List Nat
  kSock : Nat
  kConn : Nat
  kPoll : Nat
  kSo : Nat
  kCancel : Nat
  sockSlot : Option Int
  lastErr : Option ConnLastErr
  polls : List PollRecord
  cancelReads : List Bool
deriving DecidableEq

/-- Result of httpAddrConnect: the winning (address id, descriptor) pair, or
the NULL return. -/
inductive ConnResult
  | ok (addr : Nat) (fd : Nat)
  | fail
deriving DecidableEq

/-- Read the cancel flag if the caller passed one, recording the read. -/
def readCancel (env : ConnEnv) (st : ConnState) : Bool × ConnState :=
  if env.cancelPresent then
    (env.cancelVal st.kCancel,
     { st with kCancel := st.kCancel + 1,
               cancelReads := st.cancelReads ++ [env.cancelVal st.kCancel] })
  else (false, st)

/-- Close every descriptor of a list (the close-all loops of lines 83-87,
156-160, 208-212 and 336-340). -/
def closeFds (opn : List Nat) (l : List Nat) : List Nat :=
  l.foldl (fun acc fd => acc.erase fd) opn

/-- Close the whole working set. -/
def closeAllSt (st : ConnState) : ConnState :=
  { st with openFds := closeFds st.openFds (st.fds.map Prod.fst), fds := [] }

/-- Common failure epilogue (lines 333-348): a spent budget turns errno into
ETIMEDOUT, the working set is closed, and the service-unavailable error is
written with the strerror text of errno. -/
def finishFail (st : ConnState) : ConnState :=
  let e := if st.remaining ≤ 0 then ETIMEDOUT else st.errnoV
  let st1 := closeAllSt { st with errnoV := e }
  { st1 with lastErr := some (ConnLastErr.serviceUnavailable e) }

/-- Outcome of the admission step (lines 92-185): an immediate connect
success returns at once; a skipped candidate restarts the outer loop
(the C continue); otherwise control falls through to the wait. -/
inductive AdmitOut
  | retNow (r : ConnResult) (st : ConnState)
  | again (st : ConnState)
  | through (st : ConnState)
deriving DecidableEq

/-- Admission step: with spare capacity and a candidate left, open one
socket, make it non-blocking and issue one connect.  Immediate success wins
at once (closing the rest); a definite synchronous failure closes the socket
and skips the candidate; connection-in-progress adds the pair to the working
set. -/
def admitStep (env : ConnEnv) (st : ConnState) : AdmitOut :=
  match st.cursor with
  | [] => .through st
  | a :: rest =>
    if st.fds.length < FDS_CAPACITY then
      if env.socketFails st.kSock then
        .again { st with cursor := rest, kSock := st.kSock + 1 }
      else
        let f := st.nextFd
        let st1 := { st with kSock := st.kSock + 1, nextFd := f + 1,
                             openFds := f :: st.openFds }
        match env.connectRes st1.kConn with
        | .ok =>
          .retNow (.ok a f)
            { st1 with kConn := st1.kConn + 1, sockSlot := some (Int.ofNat f),
                       openFds := closeFds st1.openFds (st1.fds.map Prod.fst),
                       fds := [] }
        | .errno e =>
          let st2 := { st1 with kConn := st1.kConn + 1, errnoV := e }
          if e = EINPROGRESS ∨ e = EWOULDBLOCK then
            .through { st2 with fds := st2.fds ++ [(f, a)], cursor := rest }
          else
            .again { st2 with openFds := st2.openFds.erase f, cursor := rest }
    else .through st

/-- Interpretation of one pollfd slot (lines 244-271): when errno still reads
connection-in-progress with both readiness bits set, or hang-up arrives mixed
with readiness, query SO_ERROR; a failed query or a non-zero error marks the
slot with POLLERR, while a clean query drops the spurious POLLHUP.  Returns
the rewritten revents and whether getsockopt was called.  getsockopt itself
is taken not to disturb errno (its failure code arrives through the oracle). -/
def processRv (errnoV : Nat) (rv : Revents) (so : Int × Nat) : Revents × Bool :=
  let mixed := (decide (errnoV = EINPROGRESS) && rv.pin && rv.pout) ||
               (rv.phup && (rv.pin || rv.pout))
  if mixed then
    if so.1 ≠ 0 ∨ so.2 ≠ 0 then ({ rv with perr := true }, true)
    else if (rv.pin || rv.pout || rv.perr || rv.phup) && rv.phup &&
            (rv.pin || rv.pout) then
      ({ rv with phup := false }, true)
    else (rv, true)
  else (rv, false)

/-- Advance the getsockopt counter when a query happened. -/
def soBump (b : Bool) (k : Nat) : Nat :=
  if b then k + 1 else k

/-- Scan state: sockets examined and left in the set so far, the pfds slots
(mutated in place, never shifted), the open-descriptor ghost and the
getsockopt counter.  The slot index read for the next socket equals the
number of sockets kept so far, because removals shift fds and addrs but not
pfds. -/
structure ScanSt where
  kept : List (Nat × Nat)
  revs : List Revents
  opn : List Nat
  kSo : Nat
deriving DecidableEq

/-- Scan output: the winner if one was found, the sockets kept before it,
the unexamined remainder at the break, and the final slots / ghosts. -/
structure ScanOut where
  win : Option (Nat × Nat)
  kept : List (Nat × Nat)
  rest : List (Nat × Nat)
  revs : List Revents
  opn : List Nat
  kSo : Nat
deriving DecidableEq

/-- Result-interpretation loop (lines 239-310): examine each working-set
socket against its pfds slot; a clean ready socket wins and breaks; an
errored socket is closed and removed (the loop then re-reads the same pfds
slot for the shifted-in socket); anything else stays. -/
def scanGo (env : ConnEnv) (errnoV : Nat) (s : ScanSt) :
    List (Nat × Nat) → ScanOut
  | [] =>
    { win := none, kept := s.kept, rest := [], revs := s.revs, opn := s.opn,
      kSo := s.kSo }
  | (fd, a) :: rs =>
    let idx := s.kept.length
    let rv := s.revs.getD idx ⟨false, false, false, false⟩
    let pr := processRv errnoV rv (env.soError s.kSo)
    let rv2 := pr.1
    let kSo2 := soBump pr.2 s.kSo
    let revs2 := s.revs.set idx rv2
    if (rv2.pin || rv2.pout || rv2.perr || rv2.phup) && !rv2.perr && !rv2.phup
    then
      { win := some (fd, a), kept := s.kept, rest := rs, revs := revs2,
        opn := s.opn, kSo := kSo2 }
    else if rv2.perr || rv2.phup then
      scanGo env errnoV
        { kept := s.kept, revs := revs2, opn := s.opn.erase fd, kSo := kSo2 } rs
    else
      scanGo env errnoV
        { kept := s.kept ++ [(fd, a)], revs := revs2, opn := s.opn,
          kSo := kSo2 } rs

/-- Outcome of the scan step as seen by the main loop. -/
inductive ScanRes
  | winner (w : Nat × Nat) (st : ConnState)
  | nowin (st : ConnState)
deriving DecidableEq

/-- Run the scan over the current working set: fill pfds from the poll
answer, walk the slots, and on a win store the descriptor in the sock slot
and close every other working-set socket (lines 312-323). -/
def runScan (env : ConnEnv) (st : ConnState) (revs : Nat → Revents) : ScanRes :=
  let initRevs := (List.range st.fds.length).map revs
  let out := scanGo env st.errnoV
    { kept := [], revs := initRevs, opn := st.openFds, kSo := st.kSo } st.fds
  match out.win with
  | some w =>
    .winner w
      { st with fds := [],
                openFds := closeFds out.opn
                  (out.kept.map Prod.fst ++ out.rest.map Prod.fst),
                kSo := out.kSo, sockSlot := some (Int.ofNat w.1) }
  | none =>
    .nowin { st with fds := out.kept, openFds := out.opn, kSo := out.kSo }

/-- Outcome of the inner wait-retry loop (lines 201-233): a cancellation
observed at its top, or a completed poll (with slot revents when the return
was positive). -/
inductive PollRetryOut
  | canceled (st : ConnState)
  | polled (orevs : Option (Nat → Revents)) (st : ConnState)

/-- The timeout slice passed to poll (line 225): 100 ms while candidates
remain unadmitted, else the remaining budget capped at 250 ms. -/
def sliceOf (st : ConnState) : Int :=
  if st.cursor ≠ [] then 100
  else if st.remaining > 250 then 250 else st.remaining

/-- Ghost record appended at one poll call. -/
def pollRecordOf (st : ConnState) : PollRecord :=
  ⟨sliceOf st, decide (st.cursor ≠ []), st.remaining⟩

/-- The wait-retry loop: recheck cancellation, compute the slice, poll once,
and retry on EINTR / EAGAIN.  Each poll call appends a ghost record. -/
def pollRetry (env : ConnEnv) : Nat → ConnState → Option PollRetryOut
  | 0, _ => none
  | fuel + 1, st =>
    let rc := readCancel env st
    if rc.1 then
      some (.canceled { closeAllSt rc.2 with sockSlot := some (-1) })
    else
      let st1 := rc.2
      let pr := env.pollRes st1.kPoll
      let st2 := { st1 with kPoll := st1.kPoll + 1,
                            polls := st1.polls ++ [pollRecordOf st1] }
      match pr with
      | .err e =>
        let st3 := { st2 with errnoV := e }
        if e = EINTR ∨ e = EAGAIN then pollRetry env fuel st3
        else some (.polled none st3)
      | .timeout => some (.polled none st2)
      | .ready revs => some (.polled (some revs) st2)

/-- Outcome of one iteration of the outer loop. -/
inductive IterOut
  | ret (r : ConnResult) (st : ConnState)
  | next (st : ConnState)
deriving DecidableEq

/-- One iteration of the outer while loop (lines 79-331): cancellation, one
admission step, the exhaustion check, the wait-retry loop, the scan, and the
fixed budget decrement (100 while candidates remain unadmitted, else 250). -/
def connectIter (env : ConnEnv) (fuel : Nat) (st : ConnState) :
    Option IterOut :=
  let rc := readCancel env st
  if rc.1 then some (.ret .fail (closeAllSt rc.2))
  else
    match admitStep env rc.2 with
    | .retNow r st1 => some (.ret r st1)
    | .again st1 => some (.next st1)
    | .through st1 =>
      if st1.cursor = [] ∧ st1.fds = [] then
        some (.ret .fail (finishFail { st1 with errnoV := EHOSTDOWN }))
      else
        match pollRetry env fuel st1 with
        | none => none
        | some (.canceled st2) => some (.ret .fail st2)
        | some (.polled orevs st2) =>
          let dec : Int := if st2.cursor ≠ [] then 100 else 250
          match orevs with
          | none =>
            some (.next { st2 with remaining := st2.remaining - dec })
          | some revs =>
            match runScan env st2 revs with
            | .winner w st3 => some (.ret (.ok w.2 w.1) st3)
            | .nowin st3 =>
              some (.next { st3 with remaining := st3.remaining - dec })

/-- The outer while loop: iterate while budget remains, on fuel. -/
def connectLoop (env : ConnEnv) : Nat → ConnState →
    Option (ConnResult × ConnState)
  | 0, _ => none
  | fuel + 1, st =>
    if st.remaining ≤ 0 then some (.fail, finishFail st)
    else
      match connectIter env fuel st with
      | none => none
      | some (.ret r st1) => some (r, st1)
      | some (.next st1) => connectLoop env fuel st1

/-- Initial racer state over an address list. -/
def initConnState (addrlist : List Nat) : ConnState :=
  { cursor := addrlist, fds := [], remaining := 0, errnoV := 0, nextFd := 0,
    openFds := [], kSock := 0, kConn := 0, kPoll := 0, kSo := 0, kCancel := 0,
    sockSlot := none, lastErr := none, polls := [], cancelReads := [] }

/-- httpAddrConnect from cups/http-addrlist.c (the function the header also
exposes as httpAddrConnect2).  A missing sock output slot fails at once with
the internal error; a cancel flag already set on entry returns NULL without
touching the sink; a non-positive timeout means an INT_MAX budget. -/
def httpAddrConnect (env : ConnEnv) (addrlist : List Nat) (sockPresent : Bool)
    (msec : Int) (fuel : Nat) : Option (ConnResult × ConnState) :=
  let st0 := initConnState addrlist
  if ¬ sockPresent then
    some (.fail, { st0 with errnoV := EINVAL,
                            lastErr := some (ConnLastErr.internal EINVAL) })
  else
    let rc := readCancel env st0
    if rc.1 then some (.fail, rc.2)
    else
      connectLoop env fuel
        { rc.2 with remaining := if msec ≤ 0 then INTMAX else msec }

/-! ## Derived definitions and concrete environments used by the theorems -/

/-- Working-set bookkeeping invariant of the racer: the open descriptors are
exactly the descriptors of the working set (as a multiset). -/
def racerInv (st : ConnState) : Prop :=
  (st.openFds : Multiset Nat) = ↑(st.fds.map Prod.fst)

/-- The system lookup produced no usable address: getaddrinfo failed, or none
of its results has family AF_INET or AF_INET6. -/
def lookupEmpty (env : ResolveEnv) (hostname : Option (List Char))
    (family : Fam) (service : Option (List Char)) : Bool :=
  match env.gai hostname family service with
  | .error _ => true
  | .ok rs => rs.all (fun e => e.fam == GFam.other)

/-- Environment where every connect succeeds immediately. -/
def envImm : ConnEnv :=
  { socketFails := fun _ => false, connectRes := fun _ => ConnectOutcome.ok,
    pollRes := fun _ => PollOutcome.timeout, soError := fun _ => (0, 0),
    cancelPresent := false, cancelVal := fun _ => false }

/-- Environment where every connect reports connection-in-progress and every
poll times out. -/
def envProg : ConnEnv :=
  { envImm with connectRes := fun _ => ConnectOutcome.errno EINPROGRESS }

/-- Cancel flag already set at entry. -/
def envCancelEntry : ConnEnv :=
  { envProg with cancelPresent := true, cancelVal := fun _ => true }

/-- Cancel flag observed set at the third read (top of the wait-retry loop of
the first iteration). -/
def envCancelLater : ConnEnv :=
  { envProg with cancelPresent := true, cancelVal := fun k => 2 ≤ k }

/-- In-progress connects whose first poll reports clean write readiness on
every slot. -/
def envReady : ConnEnv :=
  { envProg with
    pollRes := fun _ => PollOutcome.ready fun _ => ⟨false, true, false, false⟩ }

/-- getsockopt SO_ERROR answering still-in-progress on every query. -/
def envScanEIP : ConnEnv :=
  { envImm with soError := fun _ => (0, EINPROGRESS) }

/-- Resolver environment whose system lookup always fails and whose service
database is empty, with a reliable allocator. -/
def resEnvDown : ResolveEnv :=
  { gai := fun _ _ _ => Except.error 7, servPort := fun _ => none,
    allocFails := fun _ => false }

/-- Job event with short attribute values. -/
def evJobSmall : IppEvent :=
  { jobId := some 42, jobName := none, jobState := some 5,
    printerName := some "prt".data, printerState := none,
    printerUri := some "ipp://h/p".data, subscribed := none }

/-- Job event whose printer name is 1100 characters long, so that the
formatted subject exceeds the 1024-byte buffer. -/
def evJobHuge : IppEvent :=
  { evJobSmall with printerName := some (List.replicate 1100 'p') }

/-- Oversized bracketed IPv6 literal: the part between the brackets is 63
characters, so the copy through the 64-byte buffer loses the closing
bracket. -/
def longLit : List Char :=
  "[v1.".data ++ List.replicate 58 'a' ++ '+' :: "eth0".data ++ [']']

/-- The set of descriptors that may remain open when httpAddrConnect
returns: the winning socket on success, nothing on failure. -/
def winnerFds : ConnResult → List Nat
  | ConnResult.ok _ fd => [fd]
  | ConnResult.fail => []

/-! ## Theorems -/

/-! ### Address-list copy: helper lemmas -/

theorem copyListGo_ok (af : Nat → Bool) :
    ∀ (src : List (Nat × Nat)) (h : Heap) (dst : List (Nat × Nat)),
    (∀ k, k < src.length → af (h.kAlloc + k) = false) →
    (copyListGo af src h dst).dst.map Prod.snd =
        dst.map Prod.snd ++ src.map Prod.snd ∧
    (copyListGo af src h dst).lastErr = none ∧
    (∀ p ∈ (copyListGo af src h dst).dst, p ∈ dst ∨ h.nextId ≤ p.1) := by
  intro src
  induction src with
  | nil => intro h dst _; simp [copyListGo]; intro a b hab; exact Or.inl hab
  | cons s rest ih =>
    intro h dst hok
    have h0 : af h.kAlloc = false := by
      have := hok 0 (by simp)
      simpa using this
    have hrec := ih { nextId := h.nextId + 1, live := h.nextId :: h.live,
                      kAlloc := h.kAlloc + 1 } (dst ++ [(h.nextId, s.2)])
      (by
        intro k hk
        have := hok (k + 1) (by simpa using Nat.succ_lt_succ hk)
        simpa [Nat.add_comm, Nat.add_assoc, Nat.add_left_comm] using this)
    simp only [copyListGo, mallocNode, h0, if_neg Bool.false_ne_true] at *
    refine ⟨?_, hrec.2.1, ?_⟩
    · rw [hrec.1]; simp
    · intro p hp
      rcases hrec.2.2 p hp with h1 | h1
      · rcases List.mem_append.mp h1 with h2 | h2
        · exact Or.inl h2
        · right
          have : p = (h.nextId, s.2) := by simpa using h2
          simp [this]
      · right; omega

theorem erase_fold_range (live0 : List Nat) : ∀ (n base : Nat),
    (List.range' base n).foldl (fun acc x => acc.erase x)
      ((List.range' base n).reverse ++ live0) = live0 := by
  intro n
  induction n with
  | zero => intro base; simp
  | succ m ih =>
    intro base
    rw [List.range'_succ]
    simp only [List.foldl_cons, List.reverse_cons]
    have hnm : base ∉ (List.range' (base + 1) m).reverse := by
      simp [List.mem_range']
      omega
    rw [List.append_assoc, List.erase_append_right _ hnm,
        List.singleton_append, List.erase_cons_head]
    exact ih (base + 1)

theorem freeList_eq (h : Heap) (dst : List (Nat × Nat)) (live0 : List Nat)
    (base : Nat)
    (hids : dst.map Prod.fst = List.range' base dst.length)
    (hlive : h.live = (dst.map Prod.fst).reverse ++ live0) :
    (httpAddrFreeList h dst).live = live0 := by
  simp only [httpAddrFreeList]
  have hf : dst.foldl (fun acc p => acc.erase p.1) h.live =
      (dst.map Prod.fst).foldl (fun acc x => acc.erase x) h.live := by
    rw [List.foldl_map]
  rw [hf, hids, hlive, hids]
  exact erase_fold_range live0 dst.length base

theorem copyListGo_fail (af : Nat → Bool) :
    ∀ (src : List (Nat × Nat)) (h : Heap) (dst : List (Nat × Nat))
      (live0 : List Nat) (base : Nat),
    dst.map Prod.fst = List.range' base dst.length →
    h.nextId = base + dst.length →
    h.live = (dst.map Prod.fst).reverse ++ live0 →
    (∃ k, k < src.length ∧ af (h.kAlloc + k) = true) →
    (copyListGo af src h dst).dst = [] ∧
    (copyListGo af src h dst).heap.live = live0 ∧
    (copyListGo af src h dst).lastErr = none := by
  intro src
  induction src with
  | nil =>
    intro h dst live0 base _ _ _ hex
    rcases hex with ⟨k, hk, _⟩
    simp at hk
  | cons s rest ih =>
    intro h dst live0 base hids hnext hlive hex
    by_cases h0 : af h.kAlloc = true
    · have heq : copyListGo af (s :: rest) h dst =
        { dst := [],
          heap := httpAddrFreeList { h with kAlloc := h.kAlloc + 1 } dst,
          lastErr := none } := by
        simp [copyListGo, mallocNode, h0]
      rw [heq]
      exact ⟨rfl, freeList_eq _ dst live0 base hids hlive, rfl⟩
    · have h0f : af h.kAlloc = false := by
        cases hv : af h.kAlloc
        · rfl
        · exact absurd hv h0
      simp only [copyListGo, mallocNode, h0f, if_neg Bool.false_ne_true]
      apply ih { nextId := h.nextId + 1, live := h.nextId :: h.live,
                 kAlloc := h.kAlloc + 1 } (dst ++ [(h.nextId, s.2)]) live0 base
      · rw [List.map_append, hids]
        simp [List.range'_concat, hnext, Nat.add_comm]
      · simp [hnext]; omega
      · simp [hlive, List.reverse_append]
      · rcases hex with ⟨k, hk, hkt⟩
        rcases Nat.eq_zero_or_pos k with rfl | hpos
        · exact absurd (by simpa using hkt) (by simp [h0f])
        · exact ⟨k - 1, by simp at hk; omega, by
            have hh : h.kAlloc + 1 + (k - 1) = h.kAlloc + k := by omega
            rw [hh]; exact hkt⟩

/-! ### Claim C7 -/

/-- C7 counterexample: a copy of a two-node list whose second allocation
fails returns NULL with every built node freed and the source ids still
live, but the last-error sink is not written at all, refuting the claim that
the Internal error is returned. -/
theorem C7_counter_no_internal_error :
    (httpAddrCopyList (fun k => decide (k = 1)) ⟨2, [0, 1], 0⟩
        [(0, 10), (1, 11)]).dst = [] ∧
    (httpAddrCopyList (fun k => decide (k = 1)) ⟨2, [0, 1], 0⟩
        [(0, 10), (1, 11)]).heap.live = [0, 1] ∧
    (httpAddrCopyList (fun k => decide (k = 1)) ⟨2, [0, 1], 0⟩
        [(0, 10), (1, 11)]).lastErr = none := by
  decide

/-- C7 (amended): httpAddrCopyList produces a new list whose addresses are
equal to, and in the same order as, the sources, sharing no nodes with the
source; if any allocation fails mid-copy, every node built so far is freed,
the source is left untouched, and NULL is returned without writing the
last-error sink. -/
theorem C7_copy_deep_and_unwind (af : Nat → Bool) (h : Heap)
    (src : List (Nat × Nat))
    (hwf : ∀ p ∈ src, p.1 < h.nextId) :
    ((∀ k, k < src.length → af (h.kAlloc + k) = false) →
      (httpAddrCopyList af h src).dst.map Prod.snd = src.map Prod.snd ∧
      (∀ p ∈ (httpAddrCopyList af h src).dst, ∀ q ∈ src, p.1 ≠ q.1) ∧
      (httpAddrCopyList af h src).lastErr = none) ∧
    ((∃ k, k < src.length ∧ af (h.kAlloc + k) = true) →
      (httpAddrCopyList af h src).dst = [] ∧
      (httpAddrCopyList af h src).heap.live = h.live ∧
      (httpAddrCopyList af h src).lastErr = none) := by
  constructor
  · intro hok
    have hmain := copyListGo_ok af src h [] hok
    refine ⟨by simpa using hmain.1, ?_, hmain.2.1⟩
    intro p hp q hq
    rcases hmain.2.2 p hp with hc | hc
    · simp at hc
    · have := hwf q hq
      omega
  · intro hex
    exact copyListGo_fail af src h [] h.live h.nextId (by simp) (by simp)
      (by simp) hex

/-- C7 witness: a concrete successful deep copy and a concrete mid-copy
failure, both through the amended theorem. -/
theorem C7_copy_deep_and_unwind_witness :
    (httpAddrCopyList (fun _ => false) ⟨2, [0, 1], 0⟩
        [(0, 10), (1, 11)]).dst.map Prod.snd = [10, 11] ∧
    (httpAddrCopyList (fun k => decide (1 ≤ k)) ⟨2, [0, 1], 0⟩
        [(0, 10), (1, 11)]).heap.live = [0, 1] := by
  constructor
  · have h := C7_copy_deep_and_unwind (fun _ => false) ⟨2, [0, 1], 0⟩
      [(0, 10), (1, 11)] (by decide)
    have h2 := (h.1 (by intro k _; rfl)).1
    simpa using h2
  · have h := C7_copy_deep_and_unwind (fun k => decide (1 ≤ k)) ⟨2, [0, 1], 0⟩
      [(0, 10), (1, 11)] (by decide)
    exact (h.2 ⟨1, by decide, by decide⟩).2.1

/-! ### Claim C10 -/

/-- C10: httpAddrCopyList applied to the empty list returns the empty list
(NULL), the same value it returns on allocation failure, and in neither case
is the last-error sink written, so the two outcomes are indistinguishable at
the public interface. -/
theorem C10_empty_copy_like_failure (af : Nat → Bool) (h : Heap)
    (af2 : Nat → Bool) (h2 : Heap) (src2 : List (Nat × Nat))
    (hfail : af2 h2.kAlloc = true) (hne : src2 ≠ []) :
    (httpAddrCopyList af h []).dst = [] ∧
    (httpAddrCopyList af h []).lastErr = none ∧
    (httpAddrCopyList af2 h2 src2).dst = [] ∧
    (httpAddrCopyList af2 h2 src2).lastErr = none ∧
    (httpAddrCopyList af h []).dst = (httpAddrCopyList af2 h2 src2).dst := by
  obtain ⟨s, rest, rfl⟩ : ∃ s rest, src2 = s :: rest := by
    cases src2 with
    | nil => exact absurd rfl hne
    | cons s r => exact ⟨s, r, rfl⟩
  refine ⟨rfl, rfl, ?_, ?_, ?_⟩ <;>
    simp [httpAddrCopyList, copyListGo, mallocNode, hfail]

/-- C10 witness: the empty-list copy and a failing one-node copy coincide. -/
theorem C10_empty_copy_like_failure_witness :
    (httpAddrCopyList (fun _ => false) ⟨0, [], 0⟩ []).dst = [] ∧
    (httpAddrCopyList (fun _ => false) ⟨0, [], 0⟩ []).lastErr = none ∧
    (httpAddrCopyList (fun _ => true) ⟨5, [9], 3⟩ [(9, 1)]).dst = [] ∧
    (httpAddrCopyList (fun _ => true) ⟨5, [9], 3⟩ [(9, 1)]).lastErr = none ∧
    (httpAddrCopyList (fun _ => false) ⟨0, [], 0⟩ []).dst =
      (httpAddrCopyList (fun _ => true) ⟨5, [9], 3⟩ [(9, 1)]).dst :=
  C10_empty_copy_like_failure _ _ _ _ _ rfl (by decide)

/-! ### Claim C9 -/

/-- The job-state switch of the code agrees pointwise with the claim's
state-word table. -/
theorem jobStateWord_eq_spec (js : Int) : jobStateWord js = specStateWord js := by
  simp [jobStateWord, specStateWord, IPP_JSTATE_PENDING, IPP_JSTATE_HELD,
        IPP_JSTATE_PROCESSING, IPP_JSTATE_STOPPED, IPP_JSTATE_CANCELED,
        IPP_JSTATE_ABORTED, IPP_JSTATE_COMPLETED]

/-- C9 (amended): for every event carrying notify-job-id, printer-name,
notify-printer-uri and job-state, cupsLocalizeNotifySubject returns the
claimed subject form truncated to the 1023 bytes that fit the 1024-byte
subject buffer; whenever the formatted subject fits the buffer this is
exactly the claimed form, with the optional job-name in parentheses (else
the word for untitled) and the state word from the claimed table. -/
theorem C9_job_subject_truncated (lg : List Char → List Char) (ev : IppEvent)
    (jid : Int) (pn pu : List Char) (js : Int)
    (h1 : ev.jobId = some jid) (h2 : ev.printerName = some pn)
    (h3 : ev.printerUri = some pu) (h4 : ev.jobState = some js) :
    cupsLocalizeNotifySubject (some lg) (some ev) =
      some ((specJobSubject lg pn jid ev.jobName js).take 1023) ∧
    ((specJobSubject lg pn jid ev.jobName js).length ≤ 1023 →
      cupsLocalizeNotifySubject (some lg) (some ev) =
        some (specJobSubject lg pn jid ev.jobName js)) := by
  have hmain : cupsLocalizeNotifySubject (some lg) (some ev) =
      some ((specJobSubject lg pn jid ev.jobName js).take 1023) := by
    cases hname : ev.jobName <;>
      simp [cupsLocalizeNotifySubject, specJobSubject, h1, h2, h3, h4, hname,
            SUBJECT_BUFSIZE, jobStateWord_eq_spec]
  refine ⟨hmain, fun hlen => ?_⟩
  rw [hmain, List.take_of_length_le hlen]

set_option maxRecDepth 40000 in
/-- C9 counterexample: with a 1100-character printer name the returned
subject is the 1023-character truncation of the claimed form, not the
claimed form itself. -/
theorem C9_counter_truncation :
    cupsLocalizeNotifySubject (some id) (some evJobHuge) ≠
      some (specJobSubject id (List.replicate 1100 'p') 42 none 5) ∧
    cupsLocalizeNotifySubject (some id) (some evJobHuge) =
      some ((specJobSubject id (List.replicate 1100 'p') 42 none 5).take 1023) := by
  decide

/-- C9 witness: a short job event formats to exactly the claimed form. -/
theorem C9_job_subject_truncated_witness :
    cupsLocalizeNotifySubject (some id) (some evJobSmall) =
      some (specJobSubject id "prt".data 42 none 5) := by
  have h := C9_job_subject_truncated id evJobSmall 42 "prt".data
    "ipp://h/p".data 5 rfl rfl rfl rfl
  exact h.2 (by decide)

/-! ### Resolver: helper lemmas -/

theorem gaiCopy_allOther (env : ResolveEnv) :
    ∀ (rs : List GaiEnt) (k : Nat) (acc : List HAddr),
    (∀ e ∈ rs, e.fam = GFam.other) →
    gaiCopy env rs k acc = .ok (acc, acc.length) := by
  intro rs
  induction rs with
  | nil => intro k acc _; rfl
  | cons e rest ih =>
    intro k acc hall
    have he : e.fam = GFam.other := hall e (by simp)
    simp only [gaiCopy, he, if_pos]
    exact ih k acc (fun x hx => hall x (by simp [hx]))

theorem caseEq_eq_map (a b : List Char) :
    caseEq a b = true ↔ a.map Char.toLower = b.map Char.toLower := by
  simp [caseEq]

theorem caseEq_localhost_shape (h : List Char)
    (hc : caseEq h localhostC = true) :
    ∃ c t, h = c :: t ∧ Char.toLower c = 'l' := by
  have hm := (caseEq_eq_map h localhostC).mp hc
  have hl : localhostC.map Char.toLower = 'l' :: "ocalhost".data := by decide
  rw [hl] at hm
  cases h with
  | nil => simp at hm
  | cons c t =>
    refine ⟨c, t, rfl, ?_⟩
    simpa using congrArg List.head? hm

theorem buildPair_addrs (env : ResolveEnv) (k pn : Nat) (family : Fam)
    (loopback : Bool) (prevErr : Option ResErr)
    (garg : Option (Option (List Char)))
    (halloc : ∀ j, env.allocFails j = false) (hp : pn < 65536) :
    (buildPair env k pn family loopback prevErr garg).addrs =
      (if family ≠ Fam.inet then
         [HAddr.v6 (if loopback then 1 else 0) pn] else []) ++
      (if family ≠ Fam.inet6 then
         [HAddr.v4 (if loopback then 0x7f000001 else 0) pn] else []) := by
  cases family <;>
    simp [buildPair, halloc, Nat.mod_eq_of_lt hp]

/-! ### Claim C5 -/

/-- C5: when the system lookup produced no addresses and the allocator
succeeds, a resolve with absent hostname yields the wildcard IPv6 address
followed by the wildcard IPv4 address (each with the resolved port, filtered
by family, IPv6 first), and a resolve with a case-insensitive localhost
hostname yields the loopback pair in the same order. -/
theorem C5_fallback_addresses (env : ResolveEnv) (fam : Fam)
    (svc : Option (List Char)) (p : Nat)
    (halloc : ∀ k, env.allocFails k = false)
    (hport : portResolve env svc = some p) (hp : p < 65536) :
    (lookupEmpty env none fam svc = true →
      (httpAddrGetList env none fam svc).addrs =
        (if fam ≠ Fam.inet then [HAddr.v6 0 p] else []) ++
        (if fam ≠ Fam.inet6 then [HAddr.v4 0 p] else [])) ∧
    (∀ h, caseEq h localhostC = true →
      (httpAddrGetList env (some h) fam svc).addrs =
        (if fam ≠ Fam.inet then [HAddr.v6 1 p] else []) ++
        (if fam ≠ Fam.inet6 then [HAddr.v4 0x7f000001 p] else [])) := by
  constructor
  · intro hle
    show (afterLookup env none fam svc).addrs = _
    unfold afterLookup
    cases hg : env.gai none fam svc with
    | error c =>
      dsimp only
      have hb := buildPair_addrs env 0 p fam false
        (some (ResErr.gaiFailed c)) (some none) halloc hp
      simp only [isLhOrNone, resolveFallback, hport, if_pos]
      simpa using hb
    | ok rs =>
      dsimp only
      have hall : ∀ e ∈ rs, e.fam = GFam.other := by
        unfold lookupEmpty at hle
        rw [hg] at hle
        simpa using hle
      rw [gaiCopy_allOther env rs 0 [] hall]
      dsimp only
      have hb := buildPair_addrs env 0 p fam false none (some none) halloc hp
      simp only [isLhOrNone, resolveFallback, hport, List.isEmpty_nil,
                 and_self, if_pos]
      simpa using hb
  · intro h hc
    obtain ⟨c, t, rfl, hcl⟩ := caseEq_localhost_shape h hc
    have hslash : ¬ ((c :: t).head? = some '/') := by
      simp only [List.head?_cons, Option.some.injEq]
      intro hcc
      rw [hcc] at hcl
      exact absurd hcl (by decide)
    unfold httpAddrGetList
    dsimp only
    rw [if_neg hslash, if_pos hc]
    have hb := buildPair_addrs env 0 p fam true none none halloc hp
    simp only [resolveFallback, hport, hc, if_pos]
    simpa using hb

/-- C5 witness: with a dead lookup and the builtin ipp port, the unspecified
family yields the wildcard pair for an absent hostname and the loopback pair
for a mixed-case localhost. -/
theorem C5_fallback_addresses_witness :
    (httpAddrGetList resEnvDown none Fam.unspec (some "ipp".data)).addrs =
      [HAddr.v6 0 631, HAddr.v4 0 631] ∧
    (httpAddrGetList resEnvDown (some "LocalHost".data) Fam.unspec
        (some "ipp".data)).addrs =
      [HAddr.v6 1 631, HAddr.v4 0x7f000001 631] := by
  have h := C5_fallback_addresses resEnvDown Fam.unspec (some "ipp".data) 631
    (fun _ => rfl) (by decide) (by decide)
  constructor
  · have h1 := h.1 (by decide)
    simpa using h1
  · have h2 := h.2 "LocalHost".data (by decide)
    simpa using h2

/-! ### Claim C6 -/

theorem portResolve_none (env : ResolveEnv) (s : List Char)
    (hdig : digitStart s = false) (hserv : env.servPort s = none)
    (hb : builtinPort s = none) :
    portResolve env (some s) = none := by
  simp [portResolve, hdig, hserv, hb]

/-- C6: a resolve that reaches the fallback step with a non-numeric service
absent from the service database and from the builtin table returns NULL
with the unknown-service error written to the sink, and no node left
allocated. -/
theorem C6_unknown_service (env : ResolveEnv) (fam : Fam)
    (hn : Option (List Char)) (s : List Char)
    (hdig : digitStart s = false) (hserv : env.servPort s = none)
    (hb : builtinPort s = none)
    (hreach : (hn = none ∧ lookupEmpty env none fam (some s) = true) ∨
              (∃ h, hn = some h ∧ caseEq h localhostC = true)) :
    (httpAddrGetList env hn fam (some s)).addrs = [] ∧
    (httpAddrGetList env hn fam (some s)).lastErr =
      some ResErr.unknownService ∧
    (httpAddrGetList env hn fam (some s)).live = 0 := by
  have hpr := portResolve_none env s hdig hserv hb
  rcases hreach with ⟨rfl, hle⟩ | ⟨h, rfl, hc⟩
  · have hgl : httpAddrGetList env none fam (some s) =
        afterLookup env none fam (some s) := rfl
    rw [hgl]
    unfold afterLookup
    cases hg : env.gai none fam (some s) with
    | error c =>
      dsimp only
      simp [isLhOrNone, resolveFallback, hpr]
    | ok rs =>
      dsimp only
      have hall : ∀ e ∈ rs, e.fam = GFam.other := by
        unfold lookupEmpty at hle
        rw [hg] at hle
        simpa using hle
      rw [gaiCopy_allOther env rs 0 [] hall]
      dsimp only
      simp [isLhOrNone, resolveFallback, hpr]
  · obtain ⟨c, t, rfl, hcl⟩ := caseEq_localhost_shape h hc
    have hslash : ¬ ((c :: t).head? = some '/') := by
      simp only [List.head?_cons, Option.some.injEq]
      intro hcc
      rw [hcc] at hcl
      exact absurd hcl (by decide)
    unfold httpAddrGetList
    dsimp only
    rw [if_neg hslash, if_pos hc]
    simp [resolveFallback, hpr]

/-- C6 witness: a bogus service name on an absent hostname with a dead
lookup returns NULL and the unknown-service error. -/
theorem C6_unknown_service_witness :
    (httpAddrGetList resEnvDown none Fam.unspec
        (some "bogus-name".data)).addrs = [] ∧
    (httpAddrGetList resEnvDown none Fam.unspec
        (some "bogus-name".data)).lastErr = some ResErr.unknownService ∧
    (httpAddrGetList resEnvDown none Fam.unspec
        (some "bogus-name".data)).live = 0 :=
  C6_unknown_service resEnvDown Fam.unspec none "bogus-name".data
    (by decide) rfl (by decide) (Or.inl ⟨rfl, by decide⟩)

/-! ### Claim C8 -/

theorem replLastPlus_append (z : List Char) (hz : '+' ∉ z) :
    ∀ a : List Char, replLastPlus (a ++ '+' :: z) = a ++ '%' :: z := by
  intro a
  induction a with
  | nil => simp [replLastPlus, hz]
  | cons c cs ih =>
    have hmem : '+' ∈ cs ++ '+' :: z := by simp
    simp [replLastPlus, hmem, ih]

theorem rewriteHostname_v1 (a z : List Char)
    (hlen : a.length + (z.length + 1) ≤ 62) (hz : '+' ∉ z) :
    rewriteHostname ("[v1.".data ++ (a ++ '+' :: z) ++ [']']) =
      a ++ '%' :: z := by
  have hhead : ("[v1.".data ++ (a ++ '+' :: z) ++ [']']).head? = some '[' := rfl
  have htake4 : ("[v1.".data ++ (a ++ '+' :: z) ++ [']']).take 4 =
      "[v1.".data := rfl
  have hdrop : ("[v1.".data ++ (a ++ '+' :: z) ++ [']']).drop 4 =
      (a ++ '+' :: z) ++ [']'] := rfl
  have hlen2 : ((a ++ '+' :: z) ++ [']']).length ≤ 63 := by
    simp
    omega
  unfold rewriteHostname cupsCopyStringN
  rw [hhead, if_pos rfl, if_pos htake4, hdrop]
  have h63 : (64 : Nat) - 1 = 63 := rfl
  rw [h63, List.take_of_length_le hlen2]
  rw [if_pos ⟨by simp, List.getLast?_concat _⟩]
  rw [List.dropLast_concat]
  exact replLastPlus_append z hz a

theorem caseEq_bracket_false (t : List Char) :
    caseEq ('[' :: t) localhostC = false := by
  apply Bool.eq_false_iff.mpr
  intro hc
  have hm := (caseEq_eq_map _ _).mp hc
  have hl : localhostC.map Char.toLower = 'l' :: "ocalhost".data := by decide
  rw [hl] at hm
  have hhd : Char.toLower '[' = 'l' := by
    simpa using congrArg List.head? hm
  exact absurd hhd (by decide)

theorem buildPair_gaiArg (env : ResolveEnv) (k pn : Nat) (family : Fam)
    (loopback : Bool) (prevErr : Option ResErr)
    (garg : Option (Option (List Char))) :
    (buildPair env k pn family loopback prevErr garg).gaiArg = garg := by
  unfold buildPair
  split_ifs <;> rfl

theorem resolveFallback_gaiArg (env : ResolveEnv) (k : Nat)
    (hostname : Option (List Char)) (family : Fam)
    (service : Option (List Char)) (prevErr : Option ResErr)
    (garg : Option (Option (List Char))) :
    (resolveFallback env k hostname family service prevErr garg).gaiArg =
      garg := by
  unfold resolveFallback
  cases portResolve env service with
  | none => rfl
  | some pn =>
    cases hostname with
    | none => exact buildPair_gaiArg env k pn family false prevErr garg
    | some h =>
      dsimp only
      split_ifs with hh
      · exact buildPair_gaiArg env k pn family true prevErr garg
      · rfl

theorem afterLookup_gaiArg (env : ResolveEnv) (hostname : Option (List Char))
    (family : Fam) (service : Option (List Char)) :
    (afterLookup env hostname family service).gaiArg = some hostname := by
  unfold afterLookup
  cases env.gai hostname family service with
  | ok rs =>
    dsimp only
    cases gaiCopy env rs 0 [] with
    | error _ => rfl
    | ok pr =>
      obtain ⟨adds, k⟩ := pr
      dsimp only
      split_ifs with hh
      · exact resolveFallback_gaiArg env k hostname family service none
          (some hostname)
      · rfl
  | error c =>
    dsimp only
    split_ifs with hh
    · exact resolveFallback_gaiArg env 0 hostname family service
        (some (ResErr.gaiFailed c)) (some hostname)
    · rfl

/-- C8 (amended): for every hostname literal of the extended bracketed form
whose bracket-stripped remainder fits the 64-byte buffer (at most 63
characters), the brackets and the v1. marker are stripped, the last plus
sign becomes the percent zone delimiter, and the system lookup receives
exactly address, delimiter and zone. -/
theorem C8_zone_rewrite (env : ResolveEnv) (fam : Fam)
    (svc : Option (List Char)) (a z : List Char)
    (hlen : a.length + (z.length + 1) ≤ 62) (hz : '+' ∉ z) :
    rewriteHostname ("[v1.".data ++ (a ++ '+' :: z) ++ [']']) =
      a ++ '%' :: z ∧
    (httpAddrGetList env (some ("[v1.".data ++ (a ++ '+' :: z) ++ [']'])) fam
        svc).gaiArg = some (some (a ++ '%' :: z)) := by
  have hrw := rewriteHostname_v1 a z hlen hz
  refine ⟨hrw, ?_⟩
  unfold httpAddrGetList
  dsimp only
  have hhead : ("[v1.".data ++ (a ++ '+' :: z) ++ [']']).head? = some '[' := rfl
  have hslash : ¬ (("[v1.".data ++ (a ++ '+' :: z) ++ [']']).head? =
      some '/') := by
    rw [hhead]
    decide
  rw [if_neg hslash, if_neg (by simp [caseEq_bracket_false]), hrw]
  exact afterLookup_gaiArg env (some (a ++ '%' :: z)) fam svc

/-- C8 witness: the literal of the claim is unwrapped and rewritten, and the
lookup receives the address, the percent delimiter and the zone. -/
theorem C8_zone_rewrite_witness :
    rewriteHostname "[v1.fe80::1+eth0]".data = "fe80::1%eth0".data ∧
    (httpAddrGetList resEnvDown (some "[v1.fe80::1+eth0]".data) Fam.unspec
        (some "ipp".data)).gaiArg = some (some "fe80::1%eth0".data) := by
  have he : "[v1.".data ++ ("fe80::1".data ++ '+' :: "eth0".data) ++ [']'] =
      "[v1.fe80::1+eth0]".data := by decide
  have hr : "fe80::1".data ++ '%' :: "eth0".data = "fe80::1%eth0".data := by
    decide
  have h := C8_zone_rewrite resEnvDown Fam.unspec (some "ipp".data)
    "fe80::1".data "eth0".data (by decide) (by decide)
  rw [he, hr] at h
  exact h

/-- C8 counterexample: a bracketed v1 literal whose bracket-stripped
remainder is 64 characters long is passed to the lookup completely
unchanged, brackets included, because the truncating copy through the
64-byte buffer loses the closing bracket; the claim as stated expects the
unwrapped and rewritten form. -/
theorem C8_counter_oversized_literal :
    rewriteHostname longLit = longLit ∧
    (httpAddrGetList resEnvDown (some longLit) Fam.unspec
        (some "ipp".data)).gaiArg = some (some longLit) ∧
    longLit ≠ List.replicate 58 'a' ++ '%' :: "eth0".data := by
  decide

theorem C2_mixed_hup_resolution (env : ConnEnv) (errV : Nat) (s : ScanSt)
    (fd a : Nat) (rs : List (Nat × Nat)) (rv : Revents)
    (hrv : s.revs.getD s.kept.length ⟨false, false, false, false⟩ = rv)
    (hhup : rv.phup = true) (hio : rv.pin = true ∨ rv.pout = true) :
    (processRv errV rv (env.soError s.kSo)).2 = true ∧
    ((env.soError s.kSo).1 ≠ 0 ∨ (env.soError s.kSo).2 ≠ 0 →
      (processRv errV rv (env.soError s.kSo)).1.perr = true ∧
      scanGo env errV s ((fd, a) :: rs) =
        scanGo env errV
          { kept := s.kept,
            revs := s.revs.set s.kept.length
              (processRv errV rv (env.soError s.kSo)).1,
            opn := s.opn.erase fd, kSo := s.kSo + 1 } rs) ∧
    ((env.soError s.kSo).1 = 0 ∧ (env.soError s.kSo).2 = 0 →
      (processRv errV rv (env.soError s.kSo)).1.phup = false ∧
      (rv.perr = false →
        scanGo env errV s ((fd, a) :: rs) =
          { win := some (fd, a), kept := s.kept, rest := rs,
            revs := s.revs.set s.kept.length
              (processRv errV rv (env.soError s.kSo)).1,
            opn := s.opn, kSo := s.kSo + 1 })) := by
  have hmixed : ((decide (errV = EINPROGRESS) && rv.pin && rv.pout) ||
      (rv.phup && (rv.pin || rv.pout))) = true := by
    rw [hhup]
    rcases hio with h | h <;> simp [h]
  have hq : (processRv errV rv (env.soError s.kSo)).2 = true := by
    simp only [processRv, hmixed, if_true]
    split_ifs <;> rfl
  refine ⟨hq, ?_, ?_⟩
  · intro hso
    have hpr : processRv errV rv (env.soError s.kSo) =
        ({ rv with perr := true }, true) := by
      simp only [processRv, hmixed, if_true]
      rw [if_pos hso]
    have hperr : (processRv errV rv (env.soError s.kSo)).1.perr = true := by
      rw [hpr]
    refine ⟨hperr, ?_⟩
    rw [scanGo]
    simp only [hrv, hpr]
    simp [hhup, soBump]
  · rintro ⟨hs1, hs2⟩
    have hpr : processRv errV rv (env.soError s.kSo) =
        ({ rv with phup := false }, true) := by
      simp only [processRv, hmixed, if_true]
      rw [if_neg (by simp [hs1, hs2])]
      rw [if_pos (by rw [hhup]; rcases hio with h | h <;> simp [h])]
    have hph : (processRv errV rv (env.soError s.kSo)).1.phup = false := by
      rw [hpr]
    refine ⟨hph, fun hperr => ?_⟩
    rw [scanGo]
    simp only [hrv, hpr]
    rcases hio with h | h <;> simp [h, hperr, soBump]

theorem C2_counter_einprogress_closed :
    (scanGo envScanEIP EINPROGRESS
        { kept := [], revs := [⟨false, true, false, true⟩], opn := [5],
          kSo := 0 } [(5, 9)]).kept = [] ∧
    (scanGo envScanEIP EINPROGRESS
        { kept := [], revs := [⟨false, true, false, true⟩], opn := [5],
          kSo := 0 } [(5, 9)]).opn = [] ∧
    (scanGo envScanEIP EINPROGRESS
        { kept := [], revs := [⟨false, true, false, true⟩], opn := [5],
          kSo := 0 } [(5, 9)]).win = none ∧
    (scanGo envScanEIP EINPROGRESS
        { kept := [], revs := [⟨false, true, false, true⟩], opn := [5],
          kSo := 0 } [(5, 9)]).kSo = 1 := by
  decide
/-- C2 witness: the same mixed signal with a clean SO_ERROR answer makes the
socket the winner, through the amended theorem. -/
theorem C2_mixed_hup_resolution_witness :
    (scanGo envImm 0
        { kept := [], revs := [⟨false, true, false, true⟩], opn := [5],
          kSo := 0 } [(5, 9)]).win = some (5, 9) := by
  have h := C2_mixed_hup_resolution envImm 0
    { kept := [], revs := [⟨false, true, false, true⟩], opn := [5], kSo := 0 }
    5 9 [] ⟨false, true, false, true⟩ rfl rfl (Or.inr rfl)
  have h2 := (h.2.2 ⟨rfl, rfl⟩).2 rfl
  rw [h2]

/-! ### Racer: helper lemmas -/

theorem closeFds_coe (l : List Nat) : ∀ opn : List Nat,
    ((closeFds opn l : List Nat) : Multiset Nat) =
      (opn : Multiset Nat) - (l : Multiset Nat) := by
  induction l with
  | nil => intro opn; simp [closeFds]
  | cons a t ih =>
    intro opn
    have hstep : closeFds opn (a :: t) = closeFds (opn.erase a) t := rfl
    rw [hstep, ih (opn.erase a)]
    rw [← Multiset.cons_coe, Multiset.sub_cons, Multiset.coe_erase]

theorem pollRetry_polled (env : ConnEnv) :
    ∀ (fuel : Nat) (st : ConnState) (orevs : Option (Nat → Revents))
      (st2 : ConnState),
    pollRetry env fuel st = some (.polled orevs st2) →
    st2.fds = st.fds ∧ st2.openFds = st.openFds ∧ st2.cursor = st.cursor ∧
    st2.remaining = st.remaining ∧ st2.lastErr = st.lastErr ∧
    st2.sockSlot = st.sockSlot ∧
    (∃ m, st2.polls = st.polls ++ List.replicate (m + 1) (pollRecordOf st)) ∧
    (∃ n, st2.cancelReads = st.cancelReads ++ List.replicate n false) := by
  intro fuel
  induction fuel with
  | zero => intro st orevs st2 h; simp [pollRetry] at h
  | succ n ih =>
    intro st orevs st2 h
    rw [pollRetry] at h
    by_cases hcp : env.cancelPresent
    · simp only [readCancel, hcp, if_true] at h
      cases hv : env.cancelVal st.kCancel with
      | true => rw [hv] at h; simp at h
      | false =>
        rw [hv] at h
        simp only [Bool.false_eq_true, if_false] at h
        cases hp : env.pollRes st.kPoll with
        | err e =>
          rw [hp] at h
          dsimp only at h
          by_cases hre : e = EINTR ∨ e = EAGAIN
          · rw [if_pos hre] at h
            obtain ⟨h1, h2, h3, h4, h5, h6, ⟨m, hm⟩, ⟨n0, hn0⟩⟩ := ih _ _ _ h
            refine ⟨h1, h2, h3, h4, h5, h6, ⟨m + 1, ?_⟩, ⟨n0 + 1, ?_⟩⟩
            · rw [hm]
              dsimp only
              rw [List.append_assoc]
              rfl
            · rw [hn0]
              dsimp only
              rw [List.append_assoc]
              rfl
          · rw [if_neg hre] at h
            simp only [Option.some.injEq, PollRetryOut.polled.injEq] at h
            obtain ⟨horevs, hst⟩ := h
            subst hst
            exact ⟨rfl, rfl, rfl, rfl, rfl, rfl, ⟨0, rfl⟩, ⟨1, rfl⟩⟩
        | timeout =>
          rw [hp] at h
          dsimp only at h
          simp only [Option.some.injEq, PollRetryOut.polled.injEq] at h
          obtain ⟨horevs, hst⟩ := h
          subst hst
          exact ⟨rfl, rfl, rfl, rfl, rfl, rfl, ⟨0, rfl⟩, ⟨1, rfl⟩⟩
        | ready revs =>
          rw [hp] at h
          dsimp only at h
          simp only [Option.some.injEq, PollRetryOut.polled.injEq] at h
          obtain ⟨horevs, hst⟩ := h
          subst hst
          exact ⟨rfl, rfl, rfl, rfl, rfl, rfl, ⟨0, rfl⟩, ⟨1, rfl⟩⟩
    · simp only [readCancel, hcp, if_false, Bool.false_eq_true] at h
      cases hp : env.pollRes st.kPoll with
      | err e =>
        rw [hp] at h
        dsimp only at h
        by_cases hre : e = EINTR ∨ e = EAGAIN
        · rw [if_pos hre] at h
          obtain ⟨h1, h2, h3, h4, h5, h6, ⟨m, hm⟩, ⟨n0, hn0⟩⟩ := ih _ _ _ h
          refine ⟨h1, h2, h3, h4, h5, h6, ⟨m + 1, ?_⟩, ⟨n0, ?_⟩⟩
          · rw [hm]
            dsimp only
            rw [List.append_assoc]
            rfl
          · rw [hn0]
        · rw [if_neg hre] at h
          simp only [Option.some.injEq, PollRetryOut.polled.injEq] at h
          obtain ⟨horevs, hst⟩ := h
          subst hst
          exact ⟨rfl, rfl, rfl, rfl, rfl, rfl, ⟨0, rfl⟩, ⟨0, by simp⟩⟩
      | timeout =>
        rw [hp] at h
        dsimp only at h
        simp only [Option.some.injEq, PollRetryOut.polled.injEq] at h
        obtain ⟨horevs, hst⟩ := h
        subst hst
        exact ⟨rfl, rfl, rfl, rfl, rfl, rfl, ⟨0, rfl⟩, ⟨0, by simp⟩⟩
      | ready revs =>
        rw [hp] at h
        dsimp only at h
        simp only [Option.some.injEq, PollRetryOut.polled.injEq] at h
        obtain ⟨horevs, hst⟩ := h
        subst hst
        exact ⟨rfl, rfl, rfl, rfl, rfl, rfl, ⟨0, rfl⟩, ⟨0, by simp⟩⟩

theorem pollRetry_canceled (env : ConnEnv) :
    ∀ (fuel : Nat) (st : ConnState) (st2 : ConnState),
    pollRetry env fuel st = some (.canceled st2) →
    st2.fds = [] ∧
    (st2.openFds : Multiset Nat) =
      (st.openFds : Multiset Nat) - ↑(st.fds.map Prod.fst) ∧
    st2.lastErr = st.lastErr ∧ st2.remaining = st.remaining ∧
    (∃ n, st2.cancelReads =
      st.cancelReads ++ List.replicate n false ++ [true]) := by
  intro fuel
  induction fuel with
  | zero => intro st st2 h; simp [pollRetry] at h
  | succ n ih =>
    intro st st2 h
    rw [pollRetry] at h
    by_cases hcp : env.cancelPresent
    · simp only [readCancel, hcp, if_true] at h
      cases hv : env.cancelVal st.kCancel with
      | true =>
        rw [hv] at h
        simp only [if_true, Option.some.injEq,
          PollRetryOut.canceled.injEq] at h
        subst h
        refine ⟨rfl, ?_, rfl, rfl, ⟨0, by simp [closeAllSt]⟩⟩
        exact closeFds_coe _ _
      | false =>
        rw [hv] at h
        simp only [Bool.false_eq_true, if_false] at h
        cases hp : env.pollRes st.kPoll with
        | err e =>
          rw [hp] at h
          dsimp only at h
          by_cases hre : e = EINTR ∨ e = EAGAIN
          · rw [if_pos hre] at h
            obtain ⟨h1, h2, h3, h4, ⟨m, hm⟩⟩ := ih _ _ h
            refine ⟨h1, h2, h3, h4, ⟨m + 1, ?_⟩⟩
            rw [hm]
            dsimp only
            rw [List.append_assoc st.cancelReads [false]]
            rfl
          · rw [if_neg hre] at h
            simp at h
        | timeout =>
          rw [hp] at h
          dsimp only at h
          simp at h
        | ready revs =>
          rw [hp] at h
          dsimp only at h
          simp at h
    · simp only [readCancel, hcp, if_false, Bool.false_eq_true] at h
      cases hp : env.pollRes st.kPoll with
      | err e =>
        rw [hp] at h
        dsimp only at h
        by_cases hre : e = EINTR ∨ e = EAGAIN
        · rw [if_pos hre] at h
          obtain ⟨h1, h2, h3, h4, ⟨m, hm⟩⟩ := ih _ _ h
          exact ⟨h1, h2, h3, h4, ⟨m, hm⟩⟩
        · rw [if_neg hre] at h
          simp at h
      | timeout =>
        rw [hp] at h
        dsimp only at h
        simp at h
      | ready revs =>
        rw [hp] at h
        dsimp only at h
        simp at h

theorem coe_singleton_list (l : List Nat) (a : Nat)
    (h : (l : Multiset Nat) = {a}) : l = [a] := by
  rw [← Multiset.coe_singleton, Multiset.coe_eq_coe] at h
  exact List.perm_singleton.mp h

theorem closeAllSt_empty (st : ConnState) (hi : racerInv st) :
    (closeAllSt st).openFds = [] ∧ (closeAllSt st).fds = [] := by
  refine ⟨?_, rfl⟩
  have hc := closeFds_coe (st.fds.map Prod.fst) st.openFds
  rw [hi, tsub_self] at hc
  exact (Multiset.coe_eq_zero _).mp hc

theorem finishFail_spec (st : ConnState) (hi : racerInv st) :
    (finishFail st).openFds = [] ∧ (finishFail st).fds = [] ∧
    (∃ e, (finishFail st).lastErr =
      some (ConnLastErr.serviceUnavailable e)) ∧
    (finishFail st).cancelReads = st.cancelReads := by
  have h2 := closeAllSt_empty
    { st with errnoV := if st.remaining ≤ 0 then ETIMEDOUT else st.errnoV } hi
  exact ⟨h2.1, h2.2, ⟨_, rfl⟩, rfl⟩

theorem admitStep_again (env : ConnEnv) (st st1 : ConnState)
    (h : admitStep env st = .again st1) :
    st1.fds = st.fds ∧ st1.openFds = st.openFds ∧
    st1.remaining = st.remaining ∧ st1.lastErr = st.lastErr ∧
    st1.cancelReads = st.cancelReads ∧ st1.polls = st.polls := by
  unfold admitStep at h
  cases hc : st.cursor with
  | nil => rw [hc] at h; simp at h
  | cons a rest =>
    rw [hc] at h
    try dsimp only at h
    by_cases hcap : st.fds.length < FDS_CAPACITY
    · rw [if_pos hcap] at h
      by_cases hsf : env.socketFails st.kSock = true
      · rw [if_pos hsf] at h
        simp only [AdmitOut.again.injEq] at h
        subst h
        exact ⟨rfl, rfl, rfl, rfl, rfl, rfl⟩
      · rw [if_neg hsf] at h
        try dsimp only at h
        cases hcr : env.connectRes st.kConn with
        | ok => rw [hcr] at h; simp at h
        | errno e =>
          rw [hcr] at h
          try dsimp only at h
          by_cases hep : e = EINPROGRESS ∨ e = EWOULDBLOCK
          · rw [if_pos hep] at h; simp at h
          · rw [if_neg hep] at h
            simp only [AdmitOut.again.injEq] at h
            subst h
            exact ⟨rfl, by simp, rfl, rfl, rfl, rfl⟩
    · rw [if_neg hcap] at h; simp at h

theorem admitStep_through (env : ConnEnv) (st st1 : ConnState)
    (h : admitStep env st = .through st1) :
    (racerInv st → racerInv st1) ∧ st1.remaining = st.remaining ∧
    st1.lastErr = st.lastErr ∧ st1.cancelReads = st.cancelReads ∧
    st1.polls = st.polls ∧ st1.sockSlot = st.sockSlot := by
  unfold admitStep at h
  cases hc : st.cursor with
  | nil =>
    rw [hc] at h
    simp only [AdmitOut.through.injEq] at h
    subst h
    exact ⟨fun hi => hi, rfl, rfl, rfl, rfl, rfl⟩
  | cons a rest =>
    rw [hc] at h
    try dsimp only at h
    by_cases hcap : st.fds.length < FDS_CAPACITY
    · rw [if_pos hcap] at h
      by_cases hsf : env.socketFails st.kSock = true
      · rw [if_pos hsf] at h; simp at h
      · rw [if_neg hsf] at h
        try dsimp only at h
        cases hcr : env.connectRes st.kConn with
        | ok => rw [hcr] at h; simp at h
        | errno e =>
          rw [hcr] at h
          try dsimp only at h
          by_cases hep : e = EINPROGRESS ∨ e = EWOULDBLOCK
          · rw [if_pos hep] at h
            simp only [AdmitOut.through.injEq] at h
            subst h
            refine ⟨?_, rfl, rfl, rfl, rfl, rfl⟩
            intro hi
            unfold racerInv at hi ⊢
            dsimp only
            rw [List.map_append, ← Multiset.coe_add, ← Multiset.cons_coe]
            rw [hi]
            simp [Multiset.singleton_add, add_comm]
          · rw [if_neg hep] at h; simp at h
    · rw [if_neg hcap] at h
      simp only [AdmitOut.through.injEq] at h
      subst h
      exact ⟨fun hi => hi, rfl, rfl, rfl, rfl, rfl⟩

theorem admitStep_retNow (env : ConnEnv) (st : ConnState) (r : ConnResult)
    (st1 : ConnState) (h : admitStep env st = .retNow r st1)
    (hi : racerInv st) :
    (∃ a f, r = .ok a f ∧ st1.openFds = [f] ∧
      st1.sockSlot = some (Int.ofNat f) ∧ st1.fds = []) ∧
    st1.lastErr = st.lastErr ∧ st1.cancelReads = st.cancelReads := by
  unfold admitStep at h
  cases hc : st.cursor with
  | nil => rw [hc] at h; simp at h
  | cons a rest =>
    rw [hc] at h
    try dsimp only at h
    by_cases hcap : st.fds.length < FDS_CAPACITY
    · rw [if_pos hcap] at h
      by_cases hsf : env.socketFails st.kSock = true
      · rw [if_pos hsf] at h; simp at h
      · rw [if_neg hsf] at h
        try dsimp only at h
        cases hcr : env.connectRes st.kConn with
        | errno e =>
          rw [hcr] at h
          try dsimp only at h
          by_cases hep : e = EINPROGRESS ∨ e = EWOULDBLOCK
          · rw [if_pos hep] at h; simp at h
          · rw [if_neg hep] at h; simp at h
        | ok =>
          rw [hcr] at h
          simp only [AdmitOut.retNow.injEq] at h
          obtain ⟨hr, hst⟩ := h
          subst hst
          refine ⟨⟨a, st.nextFd, hr.symm, ?_, rfl, rfl⟩, rfl, rfl⟩
          apply coe_singleton_list
          have hcf := closeFds_coe (st.fds.map Prod.fst)
            (st.nextFd :: st.openFds)
          rw [hcf, ← Multiset.cons_coe, hi, ← Multiset.singleton_add]
          exact add_tsub_cancel_right _ _
    · rw [if_neg hcap] at h; simp at h

theorem runScan_frames (env : ConnEnv) (st : ConnState)
    (revs : Nat → Revents) :
    (∀ st1, runScan env st revs = .nowin st1 →
      st1.polls = st.polls ∧ st1.remaining = st.remaining ∧
      st1.cursor = st.cursor ∧ st1.lastErr = st.lastErr ∧
      st1.cancelReads = st.cancelReads) ∧
    (∀ w st1, runScan env st revs = .winner w st1 →
      st1.polls = st.polls ∧ st1.remaining = st.remaining ∧
      st1.cursor = st.cursor ∧ st1.lastErr = st.lastErr ∧
      st1.cancelReads = st.cancelReads) := by
  refine ⟨?_, ?_⟩
  · intro st1 h
    simp only [runScan] at h
    split at h
    · simp at h
    · simp only [ScanRes.nowin.injEq] at h
      subst h
      exact ⟨rfl, rfl, rfl, rfl, rfl⟩
  · intro w st1 h
    simp only [runScan] at h
    split at h
    · simp only [ScanRes.winner.injEq] at h
      obtain ⟨hw2, hst⟩ := h
      subst hst
      exact ⟨rfl, rfl, rfl, rfl, rfl⟩
    · simp at h

theorem sliceOf_eq_min (st : ConnState) :
    sliceOf st = if st.cursor ≠ [] then (100 : Int)
                 else min 250 st.remaining := by
  unfold sliceOf
  by_cases hc : st.cursor = []
  · simp only [hc, ne_eq, not_true_eq_false, if_false]
    rw [min_def]
    split_ifs <;> omega
  · simp [hc]

/-- C3 (amended): on every iteration of the main loop of httpAddrConnect
that continues (returns to the loop top), either no readiness wait happened
and the budget is unchanged, or every poll of the iteration used the slice
100 ms when unadmitted candidates remained and min(250, remaining budget)
otherwise, and the budget was then decremented by the fixed step 100
(candidates remaining) or 250 (otherwise) — equal to the slice except when
no candidates remain and less than 250 ms of budget is left, where the
decrement 250 exceeds the capped slice. -/
theorem C3_slice_and_decrement (env : ConnEnv) (fuel : Nat)
    (st st1 : ConnState) (h : connectIter env fuel st = some (.next st1)) :
    (st1.polls = st.polls ∧ st1.remaining = st.remaining) ∨
    (∃ (c : Bool) (m : Nat),
      st1.polls = st.polls ++ List.replicate (m + 1)
        ⟨(if c then 100 else min 250 st.remaining), c, st.remaining⟩ ∧
      st1.remaining = st.remaining - (if c then 100 else 250)) := by
  unfold connectIter at h
  rcases hrc : readCancel env st with ⟨cv, stc⟩
  rw [hrc] at h
  try dsimp only at h
  have hcfr : stc.polls = st.polls ∧ stc.remaining = st.remaining ∧
      stc.cursor = st.cursor := by
    unfold readCancel at hrc
    by_cases hcp : env.cancelPresent
    · rw [if_pos hcp] at hrc
      cases hrc
      exact ⟨rfl, rfl, rfl⟩
    · rw [if_neg hcp] at hrc
      cases hrc
      exact ⟨rfl, rfl, rfl⟩
  cases cv with
  | true => simp at h
  | false =>
    simp only [Bool.false_eq_true, if_false] at h
    cases ha : admitStep env stc with
    | retNow r sta =>
      rw [ha] at h
      simp at h
    | again sta =>
      rw [ha] at h
      simp only [Option.some.injEq, IterOut.next.injEq] at h
      subst h
      left
      have hfr := admitStep_again env stc sta ha
      exact ⟨by rw [hfr.2.2.2.2.2, hcfr.1], by rw [hfr.2.2.1, hcfr.2.1]⟩
    | through sta =>
      rw [ha] at h
      try dsimp only at h
      have hthr := admitStep_through env stc sta ha
      have hpolls : sta.polls = st.polls := by
        rw [hthr.2.2.2.2.1, hcfr.1]
      have hrem : sta.remaining = st.remaining := by
        rw [hthr.2.1, hcfr.2.1]
      by_cases hex : sta.cursor = [] ∧ sta.fds = []
      · rw [if_pos hex] at h
        simp at h
      · rw [if_neg hex] at h
        cases hpr : pollRetry env fuel sta with
        | none => rw [hpr] at h; simp at h
        | some pout =>
          rw [hpr] at h
          cases pout with
          | canceled st3 =>
            try dsimp only at h
            simp at h
          | polled orevs st3 =>
            try dsimp only at h
            have hpp := pollRetry_polled env fuel sta orevs st3 hpr
            obtain ⟨m, hm⟩ := hpp.2.2.2.2.2.2.1
            have hc3 : st3.cursor = sta.cursor := hpp.2.2.1
            have hr3 : st3.remaining = sta.remaining := hpp.2.2.2.1
            have hp3 : st3.polls = sta.polls ++
                List.replicate (m + 1) (pollRecordOf sta) := hm
            have hrec : pollRecordOf sta =
                (⟨(if decide (sta.cursor ≠ []) then 100
                   else min 250 st.remaining),
                  decide (sta.cursor ≠ []), st.remaining⟩ : PollRecord) := by
              unfold pollRecordOf
              rw [sliceOf_eq_min, hrem]
              by_cases hcc : sta.cursor = [] <;> simp [hcc]
            cases orevs with
            | none =>
              simp only [Option.some.injEq, IterOut.next.injEq] at h
              subst h
              right
              refine ⟨decide (sta.cursor ≠ []), m, ?_, ?_⟩
              · show st3.polls = _
                rw [hp3, hpolls, hrec]
              · show st3.remaining - _ = _
                rw [hr3, hrem]
                simp only [hc3]
                by_cases hcc : sta.cursor = [] <;> simp [hcc]
            | some revs =>
              try dsimp only at h
              cases hrs : runScan env st3 revs with
              | winner w st4 =>
                rw [hrs] at h
                simp at h
              | nowin st4 =>
                rw [hrs] at h
                simp only [Option.some.injEq, IterOut.next.injEq] at h
                subst h
                right
                have hfr4 := (runScan_frames env st3 revs).1 st4 hrs
                refine ⟨decide (sta.cursor ≠ []), m, ?_, ?_⟩
                · show st4.polls = _
                  rw [hfr4.1, hp3, hpolls, hrec]
                · show st4.remaining - _ = _
                  rw [hfr4.2.1, hr3, hrem]
                  simp only [hc3]
                  by_cases hcc : sta.cursor = [] <;> simp [hcc]

theorem C3_counter_decrement_exceeds_slice :
    (httpAddrConnect envProg [7] true 100 5).isSome = true ∧
    ((httpAddrConnect envProg [7] true 100 5).getD
        (ConnResult.fail, initConnState [])).1 = ConnResult.fail ∧
    ((httpAddrConnect envProg [7] true 100 5).getD
        (ConnResult.fail, initConnState [])).2.polls =
      [⟨100, false, 100⟩] ∧
    ((httpAddrConnect envProg [7] true 100 5).getD
        (ConnResult.fail, initConnState [])).2.remaining = -150 ∧
    ¬ ((httpAddrConnect envProg [7] true 100 5).getD
        (ConnResult.fail, initConnState [])).2.remaining = 100 - 100 := by
  decide
/-- C3 witness: a concrete continuing iteration with one admitted candidate
and a timed-out poll, through the amended theorem. -/
theorem C3_slice_and_decrement_witness :
    (match connectIter envProg 3 { initConnState [7] with remaining := 600 } with
     | some (IterOut.next st1) =>
         (st1.polls = [] ∧ st1.remaining = 600) ∨
         (∃ (c : Bool) (m : Nat),
           st1.polls = [] ++ List.replicate (m + 1)
             (⟨(if c then 100 else min 250 600), c, (600 : Int)⟩ : PollRecord) ∧
           st1.remaining = 600 - (if c then 100 else 250))
     | _ => False) := by
  obtain ⟨st1, hEq⟩ : ∃ st1, connectIter envProg 3
      { initConnState [7] with remaining := 600 } =
      some (IterOut.next st1) := ⟨_, rfl⟩
  rw [hEq]
  exact C3_slice_and_decrement envProg 3 _ st1 hEq

/-! ### Claims C1 and C4: socket-closure and cancellation behaviour of the racer -/

theorem scanGo_open (env : ConnEnv) (errV : Nat) :
    ∀ (rest : List (Nat × Nat)) (s : ScanSt),
    (s.opn : Multiset Nat) =
      ↑(s.kept.map Prod.fst) + ↑(rest.map Prod.fst) →
    ((scanGo env errV s rest).win = none →
      ((scanGo env errV s rest).opn : Multiset Nat) =
        ↑((scanGo env errV s rest).kept.map Prod.fst)) ∧
    (∀ w, (scanGo env errV s rest).win = some w →
      ((scanGo env errV s rest).opn : Multiset Nat) =
        ↑((scanGo env errV s rest).kept.map Prod.fst) + {w.1} +
        ↑((scanGo env errV s rest).rest.map Prod.fst)) := by
  intro rest
  induction rest with
  | nil =>
    intro s hs
    constructor
    · intro _
      simpa using hs
    · intro w hw
      simp [scanGo] at hw
  | cons p rs ih =>
    obtain ⟨fd, a⟩ := p
    intro s hs
    have hsplit : (s.opn : Multiset Nat) =
        ↑(s.kept.map Prod.fst) + (fd ::ₘ ↑(rs.map Prod.fst)) := by
      rw [hs]
      simp [Multiset.cons_coe]
    rw [scanGo]
    try dsimp only
    split_ifs with h1 h2
    · constructor
      · intro hnone
        simp at hnone
      · intro w hw
        simp only [Option.some.injEq] at hw
        subst hw
        try dsimp only
        rw [hsplit, Multiset.add_cons, ← Multiset.singleton_add]
        abel
    · refine ih _ ?_
      try dsimp only
      rw [← Multiset.coe_erase]
      rw [hsplit, Multiset.add_cons, Multiset.erase_cons_head]
    · refine ih _ ?_
      try dsimp only
      rw [hsplit]
      simp only [List.map_append, ← Multiset.coe_add, List.map_cons,
                 List.map_nil, Multiset.coe_singleton]
      rw [Multiset.add_cons, ← Multiset.singleton_add]
      abel

theorem add_middle_tsub (K S R : Multiset Nat) : K + S + R - (K + R) = S := by
  have h : K + S + R = S + (K + R) := by abel
  rw [h, add_tsub_cancel_right]

theorem runScan_inv (env : ConnEnv) (st : ConnState) (revs : Nat → Revents)
    (hi : racerInv st) :
    (∀ st1, runScan env st revs = .nowin st1 → racerInv st1) ∧
    (∀ w st1, runScan env st revs = .winner w st1 →
      st1.openFds = [w.1] ∧ st1.fds = [] ∧
      st1.sockSlot = some (Int.ofNat w.1) ∧ st1.lastErr = st.lastErr ∧
      st1.cancelReads = st.cancelReads) := by
  have hsc := scanGo_open env st.errnoV st.fds
    { kept := [], revs := (List.range st.fds.length).map revs,
      opn := st.openFds, kSo := st.kSo }
    (by dsimp only; rw [hi]; simp)
  constructor
  · intro st1 h
    simp only [runScan] at h
    split at h
    · simp at h
    · rename_i hw
      simp only [ScanRes.nowin.injEq] at h
      subst h
      unfold racerInv
      dsimp only
      exact hsc.1 hw
  · intro w st1 h
    simp only [runScan] at h
    split at h
    · rename_i w2 hw
      simp only [ScanRes.winner.injEq] at h
      obtain ⟨hw2, hst⟩ := h
      subst hst
      subst hw2
      refine ⟨?_, rfl, rfl, rfl, rfl⟩
      apply coe_singleton_list
      dsimp only
      rw [closeFds_coe, hsc.2 _ hw, ← Multiset.coe_add]
      exact add_middle_tsub _ _ _
    · simp at h

theorem racerInv_of_eq (st st1 : ConnState) (hf : st1.fds = st.fds)
    (ho : st1.openFds = st.openFds) (hi : racerInv st) : racerInv st1 := by
  unfold racerInv at *
  rw [hf, ho, hi]

theorem not_true_mem_append_replicate (l : List Bool) (n : Nat)
    (h : true ∉ l) : true ∉ l ++ List.replicate n false := by
  intro hmem
  rcases List.mem_append.mp hmem with h1 | h1
  · exact h h1
  · have h2 := List.eq_of_mem_replicate h1
    simp at h2

theorem readCancel_spec (env : ConnEnv) (st : ConnState) :
    (readCancel env st).2.fds = st.fds ∧
    (readCancel env st).2.openFds = st.openFds ∧
    (readCancel env st).2.lastErr = st.lastErr ∧
    (readCancel env st).2.cursor = st.cursor ∧
    (readCancel env st).2.remaining = st.remaining ∧
    ((readCancel env st).1 = true →
      (readCancel env st).2.cancelReads = st.cancelReads ++ [true]) ∧
    ((readCancel env st).1 = false →
      ∃ n, (readCancel env st).2.cancelReads =
        st.cancelReads ++ List.replicate n false) := by
  unfold readCancel
  by_cases hcp : env.cancelPresent
  · rw [if_pos hcp]
    refine ⟨rfl, rfl, rfl, rfl, rfl, ?_, ?_⟩
    · intro h
      dsimp only
      dsimp only at h
      rw [h]
    · intro h
      dsimp only at h ⊢
      rw [h]
      exact ⟨1, rfl⟩
  · rw [if_neg hcp]
    refine ⟨rfl, rfl, rfl, rfl, rfl, ?_, ?_⟩
    · intro h
      simp at h
    · intro _
      exact ⟨0, by simp⟩

theorem connectIter_spec (env : ConnEnv) (fuel : Nat) (st : ConnState)
    (hi : racerInv st) :
    (∀ st1, connectIter env fuel st = some (.next st1) →
      racerInv st1 ∧ st1.lastErr = st.lastErr ∧
      (∃ n, st1.cancelReads = st.cancelReads ++ List.replicate n false)) ∧
    (∀ r st1, connectIter env fuel st = some (.ret r st1) →
      (st1.openFds = (match r with
        | ConnResult.ok _ fd => [fd]
        | ConnResult.fail => [])) ∧
      (∀ a fd, r = ConnResult.ok a fd → st1.sockSlot = some (Int.ofNat fd)) ∧
      (true ∈ st1.cancelReads → true ∉ st.cancelReads →
        r = ConnResult.fail ∧ st1.lastErr = st.lastErr)) := by
  obtain ⟨hcf, hco, hcl, hcc, hcr, hct, hcfa⟩ := readCancel_spec env st
  rcases hrc : readCancel env st with ⟨cv, stc⟩
  rw [hrc] at hcf hco hcl hcc hcr hct hcfa
  dsimp only at hcf hco hcl hcc hcr hct hcfa
  have hic : racerInv stc := racerInv_of_eq st stc hcf hco hi
  constructor
  · intro st1 h
    unfold connectIter at h
    rw [hrc] at h
    try dsimp only at h
    cases cv with
    | true => simp at h
    | false =>
      simp only [Bool.false_eq_true, if_false] at h
      obtain ⟨n0, hreads0⟩ := hcfa rfl
      cases ha : admitStep env stc with
      | retNow r sta => rw [ha] at h; simp at h
      | again sta =>
        rw [ha] at h
        simp only [Option.some.injEq, IterOut.next.injEq] at h
        subst h
        obtain ⟨haf, hao, _, hal, har, hap⟩ := admitStep_again env stc sta ha
        refine ⟨racerInv_of_eq stc _ haf hao hic, by rw [hal, hcl],
                ⟨n0, by rw [har, hreads0]⟩⟩
      | through sta =>
        rw [ha] at h
        try dsimp only at h
        obtain ⟨hthi, _, htl, htr, _, _⟩ := admitStep_through env stc sta ha
        have hia : racerInv sta := hthi hic
        by_cases hex : sta.cursor = [] ∧ sta.fds = []
        · rw [if_pos hex] at h
          simp at h
        · rw [if_neg hex] at h
          cases hpr : pollRetry env fuel sta with
          | none => rw [hpr] at h; simp at h
          | some pout =>
            rw [hpr] at h
            cases pout with
            | canceled st3 =>
              try dsimp only at h
              simp at h
            | polled orevs st3 =>
              try dsimp only at h
              have hpp := pollRetry_polled env fuel sta orevs st3 hpr
              obtain ⟨hpf, hpo, hpc, hprm, hpl, hps, _, ⟨m, hm⟩⟩ := hpp
              have hi3 : racerInv st3 := racerInv_of_eq sta st3 hpf hpo hia
              have hreads3 : ∃ n, st3.cancelReads =
                  st.cancelReads ++ List.replicate n false := by
                refine ⟨n0 + m, ?_⟩
                rw [hm, htr, hreads0]
                rw [List.append_assoc, ← List.replicate_add]
              cases orevs with
              | none =>
                simp only [Option.some.injEq, IterOut.next.injEq] at h
                subst h
                refine ⟨?_, ?_, ?_⟩
                · exact racerInv_of_eq st3 _ rfl rfl hi3
                · show st3.lastErr = st.lastErr
                  rw [hpl, htl, hcl]
                · exact hreads3
              | some revs =>
                try dsimp only at h
                cases hrs : runScan env st3 revs with
                | winner w st4 => rw [hrs] at h; simp at h
                | nowin st4 =>
                  rw [hrs] at h
                  simp only [Option.some.injEq, IterOut.next.injEq] at h
                  subst h
                  have hi4 := (runScan_inv env st3 revs hi3).1 st4 hrs
                  have hfr4 := (runScan_frames env st3 revs).1 st4 hrs
                  refine ⟨racerInv_of_eq st4 _ rfl rfl hi4, ?_, ?_⟩
                  · show st4.lastErr = st.lastErr
                    rw [hfr4.2.2.2.1, hpl, htl, hcl]
                  · obtain ⟨n3, hn3⟩ := hreads3
                    exact ⟨n3, by rw [show ({ st4 with remaining :=
                      st4.remaining - (if st3.cursor ≠ [] then 100 else 250) } :
                      ConnState).cancelReads = st4.cancelReads from rfl,
                      hfr4.2.2.2.2, hn3]⟩
  · intro r st1 h
    unfold connectIter at h
    rw [hrc] at h
    try dsimp only at h
    cases cv with
    | true =>
      simp only [if_true, Option.some.injEq, IterOut.ret.injEq] at h
      obtain ⟨hr, hst⟩ := h
      subst hst
      obtain ⟨hoe, hfe⟩ := closeAllSt_empty stc hic
      refine ⟨?_, ?_, ?_⟩
      · rw [← hr]
        exact hoe
      · intro a fd hok
        rw [← hr] at hok
        simp at hok
      · intro _ _
        refine ⟨hr.symm, ?_⟩
        show (closeAllSt stc).lastErr = st.lastErr
        rw [show (closeAllSt stc).lastErr = stc.lastErr from rfl, hcl]
    | false =>
      simp only [Bool.false_eq_true, if_false] at h
      obtain ⟨n0, hreads0⟩ := hcfa rfl
      cases ha : admitStep env stc with
      | again sta => rw [ha] at h; simp at h
      | retNow r2 sta =>
        rw [ha] at h
        simp only [Option.some.injEq, IterOut.ret.injEq] at h
        obtain ⟨hr, hst⟩ := h
        subst hst
        obtain ⟨⟨a, f, hok, hof, hsl, hfe⟩, hle, hcrd⟩ :=
          admitStep_retNow env stc r2 _ ha hic
        subst hr
        refine ⟨?_, ?_, ?_⟩
        · rw [hok]
          exact hof
        · intro a2 fd2 heq
          rw [hok] at heq
          simp only [ConnResult.ok.injEq] at heq
          rw [hsl, heq.2]
        · intro htrue hnotrue
          exfalso
          rw [hcrd, hreads0] at htrue
          exact not_true_mem_append_replicate _ _ hnotrue htrue
      | through sta =>
        rw [ha] at h
        try dsimp only at h
        obtain ⟨hthi, _, htl, htr, _, _⟩ := admitStep_through env stc sta ha
        have hia : racerInv sta := hthi hic
        by_cases hex : sta.cursor = [] ∧ sta.fds = []
        · rw [if_pos hex] at h
          simp only [Option.some.injEq, IterOut.ret.injEq] at h
          obtain ⟨hr, hst⟩ := h
          subst hst
          obtain ⟨hoe, hfe, ⟨e, hse⟩, hcrd⟩ := finishFail_spec
            { sta with errnoV := EHOSTDOWN }
            (racerInv_of_eq sta _ rfl rfl hia)
          refine ⟨?_, ?_, ?_⟩
          · rw [← hr]
            exact hoe
          · intro a fd hok
            rw [← hr] at hok
            simp at hok
          · intro htrue hnotrue
            exfalso
            rw [show ({ sta with errnoV := EHOSTDOWN } :
                  ConnState).cancelReads = sta.cancelReads from rfl] at hcrd
            rw [hcrd, htr, hreads0] at htrue
            exact not_true_mem_append_replicate _ _ hnotrue htrue
        · rw [if_neg hex] at h
          cases hpr : pollRetry env fuel sta with
          | none => rw [hpr] at h; simp at h
          | some pout =>
            rw [hpr] at h
            cases pout with
            | canceled st3 =>
              try dsimp only at h
              simp only [Option.some.injEq, IterOut.ret.injEq] at h
              obtain ⟨hr, hst⟩ := h
              subst hst
              obtain ⟨h3f, h3o, h3l, h3r, ⟨nn, h3c⟩⟩ :=
                pollRetry_canceled env fuel sta st3 hpr
              refine ⟨?_, ?_, ?_⟩
              · rw [← hr]
                have : (st3.openFds : Multiset Nat) = 0 := by
                  rw [h3o, hia, tsub_self]
                exact (Multiset.coe_eq_zero _).mp this
              · intro a fd hok
                rw [← hr] at hok
                simp at hok
              · intro _ _
                exact ⟨hr.symm, by rw [h3l, htl, hcl]⟩
            | polled orevs st3 =>
              try dsimp only at h
              have hpp := pollRetry_polled env fuel sta orevs st3 hpr
              obtain ⟨hpf, hpo, hpc, hprm, hpl, hps, _, ⟨m, hm⟩⟩ := hpp
              have hi3 : racerInv st3 := racerInv_of_eq sta st3 hpf hpo hia
              have hreads3 : ∃ n, st3.cancelReads =
                  st.cancelReads ++ List.replicate n false := by
                refine ⟨n0 + m, ?_⟩
                rw [hm, htr, hreads0]
                rw [List.append_assoc, ← List.replicate_add]
              cases orevs with
              | none => simp at h
              | some revs =>
                try dsimp only at h
                cases hrs : runScan env st3 revs with
                | nowin st4 => rw [hrs] at h; simp at h
                | winner w st4 =>
                  rw [hrs] at h
                  simp only [Option.some.injEq, IterOut.ret.injEq] at h
                  obtain ⟨hr, hst⟩ := h
                  subst hst
                  obtain ⟨hwo, hwf, hws, hwl, hwc⟩ :=
                    (runScan_inv env st3 revs hi3).2 w st4 hrs
                  refine ⟨?_, ?_, ?_⟩
                  · rw [← hr]
                    exact hwo
                  · intro a fd hok
                    rw [← hr] at hok
                    simp only [ConnResult.ok.injEq] at hok
                    rw [hws, hok.2]
                  · intro htrue hnotrue
                    exfalso
                    obtain ⟨n3, hn3⟩ := hreads3
                    rw [hwc, hn3] at htrue
                    exact not_true_mem_append_replicate _ _ hnotrue htrue

theorem winnerFds_eq (r : ConnResult) :
    winnerFds r = (match r with
      | ConnResult.ok _ fd => [fd]
      | ConnResult.fail => []) := by
  cases r <;> rfl

theorem connectLoop_c1 (env : ConnEnv) :
    ∀ (fuel : Nat) (st : ConnState) (r : ConnResult) (st1 : ConnState),
    racerInv st →
    connectLoop env fuel st = some (r, st1) →
    st1.openFds = winnerFds r ∧
    (∀ a fd, r = ConnResult.ok a fd → st1.sockSlot = some (Int.ofNat fd)) := by
  intro fuel
  induction fuel with
  | zero => intro st r st1 _ h; simp [connectLoop] at h
  | succ n ih =>
    intro st r st1 hi h
    rw [connectLoop] at h
    by_cases hrem : st.remaining ≤ 0
    · rw [if_pos hrem] at h
      simp only [Option.some.injEq, Prod.mk.injEq] at h
      obtain ⟨hr, hst⟩ := h
      subst hst
      subst hr
      obtain ⟨hoe, _, _, _⟩ := finishFail_spec st hi
      exact ⟨hoe, by intro a fd hok; simp at hok⟩
    · rw [if_neg hrem] at h
      cases hit : connectIter env n st with
      | none => rw [hit] at h; simp at h
      | some out =>
        rw [hit] at h
        cases out with
        | ret r2 st2 =>
          try dsimp only at h
          simp only [Option.some.injEq, Prod.mk.injEq] at h
          obtain ⟨hr, hst⟩ := h
          subst hst
          subst hr
          have hspec := (connectIter_spec env n st hi).2 r2 _ hit
          exact ⟨hspec.1.trans (winnerFds_eq r2).symm, hspec.2.1⟩
        | next st2 =>
          try dsimp only at h
          have hspec := (connectIter_spec env n st hi).1 st2 hit
          exact ih st2 r st1 hspec.1 h

/-- C1: on every return of httpAddrConnect, every socket opened during the
call has been closed except exactly the winning socket, which on success is
the one stored through the sock output slot. -/
theorem C1_no_socket_leak (env : ConnEnv) (addrlist : List Nat)
    (sockPresent : Bool) (msec : Int) (fuel : Nat) (r : ConnResult)
    (st1 : ConnState)
    (h : httpAddrConnect env addrlist sockPresent msec fuel = some (r, st1)) :
    st1.openFds = winnerFds r ∧
    (∀ a fd, r = ConnResult.ok a fd → st1.sockSlot = some (Int.ofNat fd)) := by
  unfold httpAddrConnect at h
  by_cases hsp : sockPresent
  · rw [if_neg (by simp [hsp])] at h
    rcases hrc : readCancel env (initConnState addrlist) with ⟨cv, stc⟩
    rw [hrc] at h
    try dsimp only at h
    obtain ⟨hcf, hco, hcl, _, _, _, _⟩ := readCancel_spec env
      (initConnState addrlist)
    rw [hrc] at hcf hco
    dsimp only at hcf hco
    cases cv with
    | true =>
      simp only [if_true, Option.some.injEq, Prod.mk.injEq] at h
      obtain ⟨hr, hst⟩ := h
      subst hst
      subst hr
      refine ⟨?_, by intro a fd hok; simp at hok⟩
      show stc.openFds = winnerFds ConnResult.fail
      rw [hco]
      rfl
    | false =>
      simp only [Bool.false_eq_true, if_false] at h
      refine connectLoop_c1 env fuel _ r st1 ?_ h
      unfold racerInv
      dsimp only
      rw [hco, hcf]
      rfl
  · rw [if_pos (by simp [hsp])] at h
    simp only [Option.some.injEq, Prod.mk.injEq] at h
    obtain ⟨hr, hst⟩ := h
    subst hst
    subst hr
    exact ⟨rfl, by intro a fd hok; simp at hok⟩

/-- C1 witness: an immediate connect success leaves exactly the winning
socket open, through the main theorem. -/
theorem C1_no_socket_leak_witness :
    ((httpAddrConnect envImm [7] true 1000 5).getD
      (ConnResult.fail, initConnState [])).2.openFds = [0] := by
  have hEq : httpAddrConnect envImm [7] true 1000 5 =
      some (((httpAddrConnect envImm [7] true 1000 5).getD
               (ConnResult.fail, initConnState [])).1,
            ((httpAddrConnect envImm [7] true 1000 5).getD
               (ConnResult.fail, initConnState [])).2) := by
    decide
  have h := C1_no_socket_leak envImm [7] true 1000 5 _ _ hEq
  exact h.1.trans (by decide)

theorem connectLoop_c4 (env : ConnEnv) :
    ∀ (fuel : Nat) (st : ConnState) (r : ConnResult) (st1 : ConnState),
    racerInv st → st.lastErr = none → true ∉ st.cancelReads →
    connectLoop env fuel st = some (r, st1) →
    true ∈ st1.cancelReads →
    r = ConnResult.fail ∧ st1.openFds = [] ∧ st1.lastErr = none := by
  intro fuel
  induction fuel with
  | zero => intro st r st1 _ _ _ h _; simp [connectLoop] at h
  | succ n ih =>
    intro st r st1 hi hle hnt h htrue
    rw [connectLoop] at h
    by_cases hrem : st.remaining ≤ 0
    · rw [if_pos hrem] at h
      simp only [Option.some.injEq, Prod.mk.injEq] at h
      obtain ⟨hr, hst⟩ := h
      subst hst
      exfalso
      obtain ⟨_, _, _, hcrd⟩ := finishFail_spec st hi
      rw [hcrd] at htrue
      exact hnt htrue
    · rw [if_neg hrem] at h
      cases hit : connectIter env n st with
      | none => rw [hit] at h; simp at h
      | some out =>
        rw [hit] at h
        cases out with
        | ret r2 st2 =>
          try dsimp only at h
          simp only [Option.some.injEq, Prod.mk.injEq] at h
          obtain ⟨hr, hst⟩ := h
          subst hst
          subst hr
          have hspec := (connectIter_spec env n st hi).2 r2 _ hit
          obtain ⟨hopen, _, himp⟩ := hspec
          obtain ⟨hfail, hlerr⟩ := himp htrue hnt
          subst hfail
          exact ⟨rfl, hopen, hlerr.trans hle⟩
        | next st2 =>
          try dsimp only at h
          have hspec := (connectIter_spec env n st hi).1 st2 hit
          obtain ⟨hi2, hl2, n2, hn2⟩ := hspec
          refine ih st2 r st1 hi2 (hl2.trans hle) ?_ h htrue
          rw [hn2]
          exact not_true_mem_append_replicate _ _ hnt

/-- C4 (amended): whenever the cancel flag is observed set at a cancel
check of httpAddrConnect, the call closes every socket of the working set
and returns NULL, leaving zero sockets open — but it does so without
writing any status to the last-error sink. -/
theorem C4_cancel_closes_all (env : ConnEnv) (addrlist : List Nat)
    (sockPresent : Bool) (msec : Int) (fuel : Nat) (r : ConnResult)
    (st1 : ConnState)
    (h : httpAddrConnect env addrlist sockPresent msec fuel = some (r, st1))
    (hc : true ∈ st1.cancelReads) :
    r = ConnResult.fail ∧ st1.openFds = [] ∧ st1.lastErr = none := by
  unfold httpAddrConnect at h
  by_cases hsp : sockPresent
  · rw [if_neg (by simp [hsp])] at h
    rcases hrc : readCancel env (initConnState addrlist) with ⟨cv, stc⟩
    rw [hrc] at h
    try dsimp only at h
    obtain ⟨hcf, hco, hcl, _, _, hct, hcfa⟩ := readCancel_spec env
      (initConnState addrlist)
    rw [hrc] at hcf hco hcl hct hcfa
    dsimp only at hcf hco hcl hct hcfa
    cases cv with
    | true =>
      simp only [if_true, Option.some.injEq, Prod.mk.injEq] at h
      obtain ⟨hr, hst⟩ := h
      subst hst
      subst hr
      refine ⟨rfl, ?_, ?_⟩
      · show stc.openFds = []
        rw [hco]
        rfl
      · show stc.lastErr = none
        rw [hcl]
        rfl
    | false =>
      simp only [Bool.false_eq_true, if_false] at h
      obtain ⟨n0, hn0⟩ := hcfa rfl
      refine connectLoop_c4 env fuel _ r st1 ?_ ?_ ?_ h hc
      · unfold racerInv
        dsimp only
        rw [hco, hcf]
        rfl
      · show stc.lastErr = none
        rw [hcl]
        rfl
      · show true ∉ stc.cancelReads
        rw [hn0]
        exact not_true_mem_append_replicate _ _ (by simp [initConnState])
  · rw [if_pos (by simp [hsp])] at h
    simp only [Option.some.injEq, Prod.mk.injEq] at h
    obtain ⟨hr, hst⟩ := h
    subst hst
    exfalso
    simp [initConnState] at hc

/-- C4 counterexample: cancel observed set at entry closes everything and
returns NULL, but the last-error sink still holds nothing — in particular
not the Cancelled error the claim promises. -/
theorem C4_counter_no_cancelled_error :
    (httpAddrConnect envCancelEntry [5] true 100 5).isSome = true ∧
    true ∈ ((httpAddrConnect envCancelEntry [5] true 100 5).getD
      (ConnResult.fail, initConnState [])).2.cancelReads ∧
    ((httpAddrConnect envCancelEntry [5] true 100 5).getD
      (ConnResult.fail, initConnState [])).1 = ConnResult.fail ∧
    ((httpAddrConnect envCancelEntry [5] true 100 5).getD
      (ConnResult.fail, initConnState [])).2.openFds = [] ∧
    ((httpAddrConnect envCancelEntry [5] true 100 5).getD
      (ConnResult.fail, initConnState [])).2.lastErr = none ∧
    ((httpAddrConnect envCancelEntry [5] true 100 5).getD
      (ConnResult.fail, initConnState [])).2.lastErr ≠
      some ConnLastErr.cancelled := by
  decide

/-- C4 witness: cancel raised only at the third flag read, so sockets are
already open when it is seen; the main theorem applies at that input. -/
theorem C4_cancel_closes_all_witness :
    ((httpAddrConnect envCancelLater [7, 8] true 1000 6).getD
      (ConnResult.fail, initConnState [])).1 = ConnResult.fail ∧
    ((httpAddrConnect envCancelLater [7, 8] true 1000 6).getD
      (ConnResult.fail, initConnState [])).2.openFds = [] ∧
    ((httpAddrConnect envCancelLater [7, 8] true 1000 6).getD
      (ConnResult.fail, initConnState [])).2.lastErr = none := by
  have hEq : httpAddrConnect envCancelLater [7, 8] true 1000 6 =
      some (((httpAddrConnect envCancelLater [7, 8] true 1000 6).getD
               (ConnResult.fail, initConnState [])).1,
            ((httpAddrConnect envCancelLater [7, 8] true 1000 6).getD
               (ConnResult.fail, initConnState [])).2) := by
    decide
  exact C4_cancel_closes_all envCancelLater [7, 8] true 1000 6 _ _ hEq
    (by decide)
